import Mathlib

/-!
easytcp: connection pool, connection, deadline-bounded executor, handler chain

A shallow embedding of the Go sources of `easytcp`
(`internal/algo/linear.go`, `internal/common/errors.go`,
`internal/common/functors.go`, `internal/connection/pool.go`,
`internal/connection/connection.go`, `context.go`, `server.go`, `client.go`)
as pure state-passing functions, followed by theorems about them.

Conventions
* a Go `error` is `Option Error` (`none` is `nil`);
* a `*Connection` held by the pool is a pointer identity `ConnPtr`
  (`Option ConnPtr`, `none` being the nil pointer);
* mutation through a pointer is explicit state passing: a method returns
  its Go results paired with the updated receiver;
* `sync.Mutex` sections are omitted: every function below is one atomic
  step of a sequential execution.
-/

namespace EasyTcp

/-! ## Errors (`internal/common/errors.go` and the `errors.New` sites) -/

/-- The error values built by the sources.  Each `errors.New` site has its
own constructor; `ext` stands for an error produced outside the repository
(socket, dialer, context). -/
inductive Error where
  /-- Go `errors.New("execution timed out")`, functors.go -/
  | timedOut
  /-- Go `errors.New("received zero length of reader buffer")`, connection.go -/
  | zeroLenBuffer
  /-- Go `errors.New("wait byte was not received")`, connection.go -/
  | waitByte
  /-- Go `errors.New("not all the bytes were written to response, connection closed")` -/
  | shortWrite
  /-- Go `errors.New("there are no available connections, try again later")` -/
  | noAvailable
  /-- Go `errors.New("cannot release an empty connection")` -/
  | emptyRelease
  /-- Go `errors.New("an error occured during pool connection release")` -/
  | releaseNotFound
  /-- Go `errors.New("it's strongly recommended to not create pool of non-fixed size")` -/
  | nonFixedSize
  /-- Go `errors.New("the handler cannot be nil, all the packets will be ignored")`, server.go -/
  | noHandler
  /-- Go `errors.New("client config connection address is not set")`, client.go -/
  | addressNotSet
  /-- Go `errors.New("client's remote address not specified")`, client.go -/
  | remoteAddressNotSpecified
  /-- an error value coming from the socket, the dialer or a context -/
  | ext (code : Nat)
  /-- Go `fmt.Errorf("%v (another error occured while closing connection: %w)", err, closeErr)` -/
  | nested (err closeErr : Error)
  /-- the same format applied to a nil `err` -/
  | nestedNil (closeErr : Error)
  /-- Go `fmt.Errorf("easytcp: %v", err)` -/
  | wrap (err : Error)
  deriving DecidableEq, Repr

/-- Go `common.NestedCloseConnErr`. -/
def NestedCloseConnErr (err closeErr : Option Error) : Option Error :=
  match closeErr with
  | some ce =>
    match err with
    | some e => some (Error.nested e ce)
    | none => some (Error.nestedNil ce)
  | none => err

/-- Go `common.WrapErr`. -/
def WrapErr (err : Option Error) : Option Error :=
  match err with
  | some e => some (Error.wrap e)
  | none => none

/-! ## Linear search (`internal/algo/linear.go`) -/

/-- Loop of `algo.IndexOf`, started at index `i`.  The iteratee may mutate
the element it is shown (the pool passes a compare-and-swap), so it returns
the element as it leaves it; the collection after the scan is returned with
the index (`-1` when nothing matched). -/
def IndexOfFrom {T : Type} (iteratee : T → Bool × T) : List T → Nat → Int × List T
  | [], _ => (-1, [])
  | el :: rest, i =>
    if (iteratee el).1 then ((i : Int), (iteratee el).2 :: rest)
    else ((IndexOfFrom iteratee rest (i + 1)).1,
          (iteratee el).2 :: (IndexOfFrom iteratee rest (i + 1)).2)

/-- Go `algo.IndexOf`. -/
def IndexOf {T : Type} (collection : List T) (iteratee : T → Bool × T) : Int × List T :=
  IndexOfFrom iteratee collection 0

/-- Go `algo.Find`: `(found, ok)` is `some found` or `none`; the second
component is the collection after the iteratee's effects. -/
def Find {T : Type} (collection : List T) (iteratee : T → Bool × T) : Option T × List T :=
  let r := IndexOf collection iteratee
  if r.1 ≠ -1 then (r.2[r.1.toNat]?, r.2) else (none, r.2)

/-! ## Admission gate (`golang.org/x/sync/semaphore.Weighted`) -/

/-- The weighted semaphore used as `clientWaiter`: `size` units, `cur` of
them outstanding.  A running program never observes `cur < 0` (`Release`
panics instead), so `cur` is a natural number. -/
structure Weighted where
  size : Nat
  cur : Nat
  deriving DecidableEq, Repr

/-- Go `semaphore.NewWeighted`. -/
def NewWeighted (n : Nat) : Weighted := { size := n, cur := 0 }

/-- Go `Weighted.Acquire(ctx, n)` in a sequential execution: admitted when
`n` units are available; otherwise the caller is suspended, and since no
other routine runs to release a unit the wait ends with the context's error
and the semaphore unchanged. -/
def Weighted.Acquire (s : Weighted) (n : Nat) : Option Error × Weighted :=
  if s.cur + n ≤ s.size then (none, { s with cur := s.cur + n })
  else (some (Error.ext 0), s)

/-- Go `Weighted.Release(n)`: `none` is the panic
"semaphore: released more than held". -/
def Weighted.Release (s : Weighted) (n : Nat) : Option Weighted :=
  if s.cur < n then none else some { s with cur := s.cur - n }

/-! ## Connection pool (`internal/connection/pool.go`) -/

/-- Identity of a `*Connection`. -/
abbrev ConnPtr := Nat

/-- Go `poolEntry`: the `acquired` flag (an `int32`, 0 free / 1 taken) and the
connection pointer. -/
structure poolEntry where
  acquired : Int
  conn : ConnPtr
  deriving DecidableEq, Repr

/-- Go `Pool`: the fields read by `Acquire` and `Release`. -/
structure Pool where
  pool : List poolEntry
  clientWaiter : Weighted
  maxSize : Nat
  deriving DecidableEq, Repr

/-- The dialing loop of `NewPool`, for slots `i, i+1, ...` (`k` of them):
the `i`-th dial either fails, which fails the construction, or yields the
`i`-th freshly allocated connection, stored with `acquired: 0`. -/
def dialEntries (dial : Nat → Option Error) : Nat → Nat → Except Error (List poolEntry)
  | 0, _ => .ok []
  | k + 1, i =>
    match dial i with
    | some err => .error err
    | none =>
      match dialEntries dial k (i + 1) with
      | .error err => .error err
      | .ok rest => .ok ({ acquired := 0, conn := i } :: rest)

/-- Go `NewPool`; `dial i` is the outcome of the `i`-th `net.Dial`. -/
def NewPool (dial : Nat → Option Error) (size : Int) : Except Error Pool :=
  if size ≤ 0 then .error Error.nonFixedSize
  else
    match dialEntries dial size.toNat 0 with
    | .error err => .error err
    | .ok entries =>
      .ok { pool := entries, clientWaiter := NewWeighted size.toNat, maxSize := size.toNat }

/-- The iteratee of `Acquire`:
`atomic.CompareAndSwapInt32(&entry.acquired, 0, 1)`. -/
def casAcquired (entry : poolEntry) : Bool × poolEntry :=
  if entry.acquired = 0 then (true, { entry with acquired := 1 }) else (false, entry)

/-- Go `Pool.Acquire`: the Go result pair `(conn, err)` and the pool afterwards. -/
def Pool.Acquire (p : Pool) : (Option ConnPtr × Option Error) × Pool :=
  match p.clientWaiter.Acquire 1 with
  | (some err, _) => ((none, some err), p)
  | (none, gate) =>
    match Find p.pool casAcquired with
    | (none, entries) =>
      ((none, some Error.noAvailable), { p with pool := entries, clientWaiter := gate })
    | (some entry, entries) =>
      ((some entry.conn, none), { p with pool := entries, clientWaiter := gate })

/-- How a call that may panic ends. -/
inductive Outcome (α : Type) where
  | returned (a : α)
  | panicked
  deriving DecidableEq, Repr

/-- The slots after `atomic.StoreInt32(&entry.acquired, 0)` on the first
entry whose connection is `conn` (the entry `Find` returned). -/
def storeReleased (conn : ConnPtr) : List poolEntry → List poolEntry
  | [] => []
  | entry :: rest =>
    if entry.conn = conn then { entry with acquired := 0 } :: rest
    else entry :: storeReleased conn rest

/-- Go `Pool.Release`. -/
def Pool.Release (p : Pool) (conn : Option ConnPtr) : Outcome (Option Error) × Pool :=
  match conn with
  | none => (.returned (WrapErr (some Error.emptyRelease)), p)
  | some c =>
    match (Find p.pool (fun entry => (decide (entry.conn = c), entry))).1 with
    | none => (.returned (WrapErr (some Error.releaseNotFound)), p)
    | some _ =>
      let p1 := { p with pool := storeReleased c p.pool }
      match p.clientWaiter.Release 1 with
      | none => (.panicked, p1)
      | some gate => (.returned none, { p1 with clientWaiter := gate })

/-- Number of entries whose acquired flag is set. -/
def takenCount : List poolEntry → Nat
  | [] => 0
  | entry :: rest => (if entry.acquired = 0 then 0 else 1) + takenCount rest

/-- Number of slots of the pool whose acquired flag is set. -/
def Pool.acquiredCount (p : Pool) : Nat := takenCount p.pool

/-- The acquired flags, slot by slot. -/
def Pool.flags (p : Pool) : List Int := p.pool.map (fun entry => entry.acquired)

/-- A call on the pool. -/
inductive PoolOp where
  | acquire
  | release (conn : Option ConnPtr)
  deriving DecidableEq, Repr

/-- The pool after one call. -/
def Pool.step (p : Pool) : PoolOp → Pool
  | .acquire => p.Acquire.2
  | .release conn => (p.Release conn).2

/-- The pool after a sequence of calls. -/
def Pool.run (p : Pool) (ops : List PoolOp) : Pool := ops.foldl Pool.step p

/-! ## Deadline-bounded execution (`internal/common/functors.go`) -/

/-- Go `WithTimeoutError`.  `Err` is never nil: it is set from a non-nil `err`
or from `errors.New`. -/
structure WithTimeoutError where
  Err : Error
  CleanupErr : Option Error
  deriving DecidableEq, Repr

/-- How the two routines of one `WithContext` call interleave: which case
the `select` takes, and how far the goroutine running `fn` has come when the
deadline case runs its attempt on the latch and when the caller reads the
variables `fn` writes. -/
inductive Schedule where
  /-- the goroutine ran `fn` (and the latch, when `fn` failed) and its send
  on `ready` is received -/
  | workFirst
  /-- `ctx.Done()` is received, and `fn` has not returned by the time the
  caller reads the variables -/
  | deadlineFirst
  /-- `fn` has returned but its goroutine has not reached the latch when
  `ctx.Done()` is received: the attempt of the deadline case comes first -/
  | deadlineAfterWork
  /-- `fn` has returned and its goroutine is past the latch (waiting on its
  unbuffered send) when `ctx.Done()` is received -/
  | deadlineAfterLatch
  /-- `ctx.Done()` is received and the deadline case runs its attempt while
  `fn` is pending; `fn` returns before the caller reads the variables -/
  | deadlineThenWork
  deriving DecidableEq, Repr

/-- The variables shared by the two routines of one `WithContext` call:
the initiator (with everything `fn` and `cleanup` mutate), the `done` flag
of `once`, `timeOutErr`, and a ghost count of the calls of `cleanup`. -/
structure Exec (σ : Type) where
  target : σ
  once : Bool
  timeOutErr : Option WithTimeoutError
  cleanups : Nat

/-- The body passed to `once.Do` on both paths: call `cleanup` and record
the outcome. -/
def Exec.record {σ : Type} (cleanup : σ → Option Error × σ) (err : Error) (x : Exec σ) : Exec σ :=
  { x with
    target := (cleanup x.target).2
    timeOutErr := some { Err := err, CleanupErr := (cleanup x.target).1 }
    cleanups := x.cleanups + 1 }

/-- Go `once.Do(f)` on the shared variables. -/
def Exec.onceDo {σ : Type} (f : Exec σ → Exec σ) (x : Exec σ) : Exec σ :=
  if x.once then x else { f x with once := true }

/-- The goroutine of `WithContext` up to its send on `ready`. -/
def Exec.worker {σ : Type} (fn cleanup : σ → Option Error × σ) (x : Exec σ) : Exec σ :=
  match (fn x.target).1 with
  | some err => Exec.onceDo (Exec.record cleanup err) { x with target := (fn x.target).2 }
  | none => { x with target := (fn x.target).2 }

/-- The `case <-ctx.Done()` branch. -/
def Exec.deadline {σ : Type} (cleanup : σ → Option Error × σ) (x : Exec σ) : Exec σ :=
  Exec.onceDo (Exec.record cleanup Error.timedOut) x

/-- The shared variables when the caller of `WithContext` reads them. -/
def WithContext.atReturn {σ : Type} (sched : Schedule) (fn cleanup : σ → Option Error × σ)
    (s : σ) : Exec σ :=
  let x : Exec σ := { target := s, once := false, timeOutErr := none, cleanups := 0 }
  match sched with
  | .workFirst => Exec.worker fn cleanup x
  | .deadlineFirst => Exec.deadline cleanup x
  | .deadlineAfterWork => Exec.deadline cleanup { x with target := (fn x.target).2 }
  | .deadlineAfterLatch => Exec.deadline cleanup (Exec.worker fn cleanup x)
  | .deadlineThenWork => Exec.worker fn cleanup (Exec.deadline cleanup x)

/-- The shared variables once the goroutine has finished too: where `fn`
was still pending it returns and the goroutine runs its attempt on the
latch; where `fn` had returned without the goroutine reaching the latch,
the goroutine makes its attempt after the deadline case. -/
def WithContext.settled {σ : Type} (sched : Schedule) (fn cleanup : σ → Option Error × σ)
    (s : σ) : Exec σ :=
  match sched with
  | .workFirst => WithContext.atReturn sched fn cleanup s
  | .deadlineFirst => Exec.worker fn cleanup (WithContext.atReturn sched fn cleanup s)
  | .deadlineAfterWork =>
    match (fn s).1 with
    | some err => Exec.onceDo (Exec.record cleanup err) (WithContext.atReturn sched fn cleanup s)
    | none => WithContext.atReturn sched fn cleanup s
  | .deadlineAfterLatch => WithContext.atReturn sched fn cleanup s
  | .deadlineThenWork => WithContext.atReturn sched fn cleanup s

/-- Go `common.WithContext`: the returned error and the initiator as the call
leaves it. -/
def WithContext {σ : Type} (sched : Schedule) (fn cleanup : σ → Option Error × σ) (s : σ) :
    Option WithTimeoutError × σ :=
  ((WithContext.atReturn sched fn cleanup s).timeOutErr,
   (WithContext.atReturn sched fn cleanup s).target)

/-- Go `common.WithTimeout`: `WithContext` under a context that expires after
`timeout`; whether and when it expires is the schedule. -/
def WithTimeout {σ : Type} (sched : Schedule) (_timeout : Nat)
    (fn cleanup : σ → Option Error × σ) (s : σ) : Option WithTimeoutError × σ :=
  WithContext sched fn cleanup s

/-! ## Socket (`net.Conn`, the external byte stream) -/

abbrev Byte := Nat

/-- What one future `Read` of the socket has to offer. -/
structure ReadReply where
  data : List Byte
  err : Option Error
  deriving DecidableEq, Repr

/-- What one future `Write` of the socket answers: the count it reports
and its error. -/
structure WriteReply where
  n : Nat
  err : Option Error
  deriving DecidableEq, Repr

/-- The raw socket as an environment: scripted replies of the calls to
come, and a log of the calls made. -/
structure Socket where
  reads : List ReadReply
  writes : List WriteReply
  /-- result of `Close` -/
  closeErr : Option Error
  /-- buffer length of every `Read` made -/
  readLog : List Nat
  /-- argument of every `Write` made -/
  writeLog : List (List Byte)
  /-- number of calls of `Close` -/
  closeCalls : Nat
  deriving DecidableEq, Repr

/-- Go `net.Conn.Read` on a buffer of length `len`: the bytes stored at the
start of the buffer and the error.  A reply longer than the buffer is
delivered in part, the rest stays queued; with nothing scripted the stream
has ended. -/
def Socket.Read (s : Socket) (len : Nat) : (List Byte × Option Error) × Socket :=
  match s.reads with
  | [] => (([], some (Error.ext 2)), { s with readLog := s.readLog ++ [len] })
  | r :: rest =>
    if r.data.length ≤ len then
      ((r.data, r.err), { s with reads := rest, readLog := s.readLog ++ [len] })
    else
      ((r.data.take len, none),
       { s with reads := { r with data := r.data.drop len } :: rest,
                readLog := s.readLog ++ [len] })

/-- Go `net.Conn.Write`: the reported count (never more than `len(b)`) and
the error; with nothing scripted the write is complete. -/
def Socket.Write (s : Socket) (b : List Byte) : (Nat × Option Error) × Socket :=
  match s.writes with
  | [] => ((b.length, none), { s with writeLog := s.writeLog ++ [b] })
  | w :: rest =>
    ((min w.n b.length, w.err), { s with writes := rest, writeLog := s.writeLog ++ [b] })

/-- Go `net.Conn.Close`. -/
def Socket.Close (s : Socket) : Option Error × Socket :=
  (s.closeErr, { s with closeCalls := s.closeCalls + 1 })

/-! ## Connection (`internal/connection/connection.go`) -/

/-- Go `ConnectionConfig`, durations in nanoseconds. -/
structure ConnectionConfig where
  ReadTimeout : Nat
  WriteTimeout : Nat
  DialTimeout : Nat
  deriving DecidableEq, Repr

/-- Go `DefaultConnectionConfig`: ten seconds each. -/
def DefaultConnectionConfig : ConnectionConfig :=
  { ReadTimeout := 10 * 1000000000, WriteTimeout := 10 * 1000000000,
    DialTimeout := 10 * 1000000000 }

/-- Go `ConnectionConfig.setDefault`. -/
def ConnectionConfig.setDefault (c : ConnectionConfig) : ConnectionConfig :=
  let c1 := if c.ReadTimeout = 0 then { c with ReadTimeout := DefaultConnectionConfig.ReadTimeout } else c
  let c2 := if c1.WriteTimeout = 0 then { c1 with WriteTimeout := DefaultConnectionConfig.WriteTimeout } else c1
  if c2.DialTimeout = 0 then { c2 with DialTimeout := DefaultConnectionConfig.DialTimeout } else c2

/-- Go `Connection`.  `closeNotifier` is the number of values sent on the
channel so far; `notifyOnce` is the `done` flag of the `sync.Once`. -/
structure Connection where
  conn : Socket
  readTimeout : Nat
  writeTimeout : Nat
  dialTimeout : Nat
  closeNotifier : Nat
  notifyOnce : Bool
  bufferedByte : Option Byte
  deriving DecidableEq, Repr

/-- Go `NewConnection` with an explicit config. -/
def NewConnection (conn : Socket) (config : ConnectionConfig) : Connection :=
  { conn := conn
    readTimeout := config.setDefault.ReadTimeout
    writeTimeout := config.setDefault.WriteTimeout
    dialTimeout := config.setDefault.DialTimeout
    closeNotifier := 0
    notifyOnce := false
    bufferedByte := none }

/-- Go `Connection.Close`: under `notifyOnce`, send on `closeNotifier` and
close the socket; a call that finds the latch set returns the nil `err`. -/
def Connection.Close (c : Connection) : Option Error × Connection :=
  if c.notifyOnce then (none, c)
  else
    (c.conn.Close.1,
     { c with closeNotifier := c.closeNotifier + 1, conn := c.conn.Close.2, notifyOnce := true })

/-- Go `Connection.WaitForPacket`. -/
def Connection.WaitForPacket (c : Connection) : Option Error × Connection :=
  match c.bufferedByte with
  | some _ => (none, c)
  | none =>
    let r := c.conn.Read 1
    let c1 := { c with conn := r.2 }
    match r.1.2 with
    | some err => (some err, c1)
    | none =>
      if r.1.1.length ≠ 1 then (WrapErr (some Error.waitByte), c1)
      else (none, { c1 with bufferedByte := r.1.1.head? })

/-- The variables the closures of `ReadContext` and `WriteContext` capture:
the connection, the buffer `b` and the named results `n`, `err`. -/
structure CallVars where
  c : Connection
  b : List Byte
  n : Nat
  err : Option Error
  deriving DecidableEq, Repr

/-- The bytes `data` stored into `b` from index `offset` on. -/
def storeAt (b : List Byte) (offset : Nat) (data : List Byte) : List Byte :=
  b.take offset ++ data ++ b.drop (offset + data.length)

/-- The work closure of `ReadContext`:
`n, err = c.conn.Read(b[offset:]); n += offset; return err`. -/
def readFn (offset : Nat) (v : CallVars) : Option Error × CallVars :=
  let r := v.c.conn.Read (v.b.length - offset)
  (r.1.2, { c := { v.c with conn := r.2 }, b := storeAt v.b offset r.1.1,
            n := r.1.1.length + offset, err := r.1.2 })

/-- The cleanup closure of `ReadContext` and `WriteContext`: `c.Close()`. -/
def closeFn (v : CallVars) : Option Error × CallVars :=
  (v.c.Close.1, { v with c := v.c.Close.2 })

/-- The tail shared by `ReadContext` and `WriteContext` after
`err = common.WithContext(...)`. -/
def finishCall (r : Option WithTimeoutError × CallVars) : (Nat × Option Error) × Connection × List Byte :=
  match r.1 with
  | some e =>
    match e.CleanupErr with
    | none => ((r.2.n, NestedCloseConnErr (some e.Err) r.2.c.Close.1), r.2.c.Close.2, r.2.b)
    | some ce => ((r.2.n, NestedCloseConnErr (some e.Err) (some ce)), r.2.c, r.2.b)
  | none => ((r.2.n, none), r.2.c, r.2.b)

/-- Go `Connection.ReadContext`: the result pair `(n, err)`, the connection and
the caller's buffer afterwards.  The context is represented by the schedule
of the `WithContext` call. -/
def Connection.ReadContext (sched : Schedule) (c : Connection) (b : List Byte) :
    (Nat × Option Error) × Connection × List Byte :=
  if b.length = 0 then ((0, some Error.zeroLenBuffer), c, b)
  else
    match c.bufferedByte with
    | some x =>
      if b.length = 1 then ((1, none), { c with bufferedByte := none }, b.set 0 x)
      else
        finishCall (WithContext sched (readFn 1) closeFn
          { c := { c with bufferedByte := none }, b := b.set 0 x, n := 0, err := none })
    | none =>
      finishCall (WithContext sched (readFn 0) closeFn { c := c, b := b, n := 0, err := none })

/-- Go `Connection.Read`: `ReadContext` under the read timeout. -/
def Connection.Read (sched : Schedule) (c : Connection) (b : List Byte) :
    (Nat × Option Error) × Connection × List Byte :=
  c.ReadContext sched b

/-- The work closure of `WriteContext`: `n, err = c.conn.Write(b); return err`. -/
def writeFn (v : CallVars) : Option Error × CallVars :=
  let r := v.c.conn.Write v.b
  (r.1.2, { v with c := { v.c with conn := r.2 }, n := r.1.1, err := r.1.2 })

/-- Go `Connection.WriteContext`. -/
def Connection.WriteContext (sched : Schedule) (c : Connection) (b : List Byte) :
    (Nat × Option Error) × Connection :=
  let r := finishCall (WithContext sched writeFn closeFn { c := c, b := b, n := 0, err := none })
  (r.1, r.2.1)

/-- Go `Connection.Write`: `WriteContext` under the write timeout. -/
def Connection.Write (sched : Schedule) (c : Connection) (b : List Byte) :
    (Nat × Option Error) × Connection :=
  c.WriteContext sched b

/-- The variables the closures of `Dial` capture: the local `conn` (nil
until the dial assigns it) and the named result `err`; `nilCloses` is the
ghost number of calls of `Close` made on the nil `conn`, each of them a
nil dereference that panics. -/
structure DialVars where
  conn : Option Socket
  err : Option Error
  nilCloses : Nat
  deriving DecidableEq, Repr

/-- The work closure of `Dial`:
`conn, err = net.Dial("tcp", c.RemoteAddr()); return err`, `dialed` being
what `net.Dial` answers (a socket, or an error with a nil `conn`). -/
def dialFn (dialed : Except Error Socket) (v : DialVars) : Option Error × DialVars :=
  match dialed with
  | .ok sock => (none, { v with conn := some sock, err := none })
  | .error e => (some e, { v with conn := none, err := some e })

/-- The cleanup closure of `Dial`: `return conn.Close()`, on whatever the
local `conn` holds. -/
def dialCleanup (v : DialVars) : Option Error × DialVars :=
  match v.conn with
  | some sock => (sock.Close.1, { v with conn := some sock.Close.2 })
  | none => (none, { v with nilCloses := v.nilCloses + 1 })

/-- Go `Connection.Dial`: how the call ends, the connection afterwards and
the closure variables.  The result of `WithTimeout` is stored in `err` and
the function ends with `return nil`; the dialed socket stays in the local
`conn`. -/
def Connection.Dial (sched : Schedule) (dialed : Except Error Socket) (c : Connection) :
    Outcome (Option Error) × Connection × DialVars :=
  let r := WithTimeout sched c.dialTimeout (dialFn dialed) dialCleanup
    { conn := none, err := none, nilCloses := 0 }
  if r.2.nilCloses ≠ 0 then (.panicked, c, r.2) else (.returned none, c, r.2)

/-! ## Server context and handler chain (`context.go`, `server.go`) -/

/-- Go `ServerContext`: the handler cursor, the connection and the response
buffer (`bytes.Buffer` contents). -/
structure ServerContext where
  handlerIdx : Nat
  conn : Connection
  resp : List Byte
  deriving DecidableEq, Repr

/-- A `ServerHandler` as the tree of what it does with its context: return
an error value; act on the context through its exported surface (reads,
writes, buffer) and go on, possibly depending on what it saw; or call
`ctx.Next()` and go on with the error that call returned. -/
inductive Handler where
  | ret (err : Option Error)
  | act (f : ServerContext → ServerContext) (k : ServerContext → Handler)
  | next (k : Option Error → Handler)

/-- The context during a chain run, with the ghost list of the indices of
the handlers invoked so far. -/
abbrev ChainState := ServerContext × List Nat

/-- Running a handler body, `callNext` being `ctx.Next`.  An action cannot
touch the unexported cursor, only `Next` moves it; a panic inside `Next`
unwinds through the handler. -/
def Handler.run (callNext : ChainState → Outcome (Option Error) × ChainState) :
    Handler → ChainState → Outcome (Option Error) × ChainState
  | .ret err, st => (.returned err, st)
  | .act f k, st =>
    Handler.run callNext (k st.1) ({ f st.1 with handlerIdx := st.1.handlerIdx }, st.2)
  | .next k, st =>
    match (callNext st).1 with
    | .panicked => (.panicked, (callNext st).2)
    | .returned err => Handler.run callNext (k err) (callNext st).2

/-- Go `ServerContext.Next` with a bound `rem` on the number of handlers still
ahead of the cursor, on which the recursion through the handlers descends.
A cursor beyond the chain makes `handlers[handlerIdx-1]` panic (index out
of range).  The last case, a handler ahead with `rem = 0`, is outside the
bound. -/
def NextWithin (handlers : List Handler) : Nat → ChainState → Outcome (Option Error) × ChainState
  | 0, st => if st.1.handlerIdx = handlers.length then (.returned none, st) else (.panicked, st)
  | rem + 1, st =>
    if st.1.handlerIdx = handlers.length then (.returned none, st)
    else
      match handlers[st.1.handlerIdx]? with
      | none => (.panicked, ({ st.1 with handlerIdx := st.1.handlerIdx + 1 }, st.2))
      | some h =>
        Handler.run (NextWithin handlers rem) h
          ({ st.1 with handlerIdx := st.1.handlerIdx + 1 }, st.2 ++ [st.1.handlerIdx])

/-- Go `ServerContext.Next`, `handlers` being `ctx.server.handlers`. -/
def Next (handlers : List Handler) (st : ChainState) : Outcome (Option Error) × ChainState :=
  NextWithin handlers (handlers.length - st.1.handlerIdx) st

/-- A handler body in which no path calls `Next`. -/
def Handler.neverNext : Handler → Prop
  | .ret _ => True
  | .act _ k => ∀ ctx, Handler.neverNext (k ctx)
  | .next _ => False

/-- Go `ServerContext.WriteBuf`. -/
def ServerContext.WriteBuf (ctx : ServerContext) (b : List Byte) :
    (Nat × Option Error) × ServerContext :=
  ((b.length, none), { ctx with resp := ctx.resp ++ b })

/-- Go `ServerContext.SendBinary`. -/
def ServerContext.SendBinary (sched : Schedule) (ctx : ServerContext) (b : List Byte) :
    (Nat × Option Error) × ServerContext :=
  ((ctx.conn.Write sched b).1, { ctx with conn := (ctx.conn.Write sched b).2 })

/-- Go `ServerContext.SendBuf`: `defer ctx.resp.Reset()` runs after the write. -/
def ServerContext.SendBuf (sched : Schedule) (ctx : ServerContext) :
    (Nat × Option Error) × ServerContext :=
  ((ctx.SendBinary sched ctx.resp).1, { (ctx.SendBinary sched ctx.resp).2 with resp := [] })

/-- Go `Server`: the handler chain. -/
structure Server where
  handlers : List Handler
  unmarshallerTimeout : Int := 0
  responseTimeout : Int := 0

/-- Go `Server.Register`. -/
def Server.Register (s : Server) (fn : Handler) : Server :=
  { s with handlers := s.handlers ++ [fn] }

/-- Go `ServerConfig`, durations (`time.Duration`) in nanoseconds. -/
structure ServerConfig where
  ReadTimeout : Int
  WriteTimeout : Int
  deriving DecidableEq, Repr

/-- Go `DefaultServerConfig`: ten seconds each. -/
def DefaultServerConfig : ServerConfig :=
  { ReadTimeout := 10 * 1000000000, WriteTimeout := 10 * 1000000000 }

/-- Go `ServerConfig.setDefault`. -/
def ServerConfig.setDefault (c : ServerConfig) : ServerConfig :=
  let c1 := if c.ReadTimeout = 0 then { c with ReadTimeout := DefaultServerConfig.ReadTimeout } else c
  if c1.WriteTimeout = 0 then { c1 with WriteTimeout := DefaultServerConfig.WriteTimeout } else c1

/-- Go `NewServer` with an explicit config: no handler is registered yet. -/
def NewServer (config : ServerConfig) : Server :=
  { handlers := []
    unmarshallerTimeout := config.setDefault.ReadTimeout
    responseTimeout := config.setDefault.WriteTimeout }

/-- Go `Server.validateBeforeListen`. -/
def Server.validateBeforeListen (s : Server) : Option Error :=
  if s.handlers.length = 0 then some Error.noHandler else none

/-- Go `Server.Listen` up to its accept loop.  `listenErr` is what opening
the listener answers.  The first component is the error returned, `none`
when the accept loop is entered (from which `Listen` does not return); the
second is the ghost number of listeners the call tried to open. -/
def Server.Listen (s : Server) (listenErr : Option Error) : Option Error × Nat :=
  match s.validateBeforeListen with
  | some err => (WrapErr (some err), 0)
  | none =>
    match listenErr with
    | some err => (some err, 1)
    | none => (none, 1)

/-- The server after registering the handlers of `fns`, one call of
`Register` each, in this order. -/
def Server.registerAll (s : Server) (fns : List Handler) : Server :=
  fns.foldl Server.Register s

/-- The state of the loop of `connHandler`: the context and the ghost list
of the errors handed to the error handler. -/
structure LoopState where
  ctx : ServerContext
  handled : List Error
  deriving DecidableEq, Repr

/-- Go `Server.handleErr`: a non-nil error reaches the error handler. -/
def handleErr (st : LoopState) (err : Option Error) : LoopState :=
  match err with
  | none => st
  | some e => { st with handled := st.handled ++ [e] }

/-- How one iteration of the loop of `connHandler` ends. -/
inductive LoopStep where
  /-- the loop goes on with the next iteration -/
  | again (st : LoopState)
  /-- Go `connHandler` returns -/
  | exit (st : LoopState)
  /-- a panic -/
  | crashed
  deriving DecidableEq, Repr

/-- The second half of the loop body of `connHandler`: "if the user has
written the response, send in to socket". -/
def flushResponse (sched : Schedule) (st : LoopState) : LoopStep :=
  if st.ctx.resp.length ≠ 0 then
    let r := st.ctx.SendBuf sched
    match r.1.2 with
    | some err =>
      .exit (handleErr { st with ctx := { r.2 with conn := r.2.conn.Close.2 } }
        (WrapErr (NestedCloseConnErr (some err) r.2.conn.Close.1)))
    | none =>
      if r.1.1 ≠ r.2.resp.length then
        .exit (handleErr { st with ctx := { r.2 with conn := r.2.conn.Close.2 } }
          (WrapErr (NestedCloseConnErr (some Error.shortWrite) r.2.conn.Close.1)))
      else .again { st with ctx := r.2 }
  else .again st

/-- One iteration of the `for` loop of `connHandler`. -/
def loopBody (s : Server) (sched : Schedule) (st : LoopState) : LoopStep :=
  match Next s.handlers ({ st.ctx with handlerIdx := 0 }, []) with
  | (.panicked, _) => .crashed
  | (.returned (some err), st1) => .exit (handleErr { st with ctx := st1.1 } (some err))
  | (.returned none, st1) => flushResponse sched { st with ctx := st1.1 }

/-! ## Client (`client.go`) -/

/-- Go `Client`, durations (`time.Duration`, an `int64`) in nanoseconds. -/
structure Client where
  readTimeout : Int
  writeTimeout : Int
  pool : Pool
  deriving DecidableEq, Repr

/-- Go `ClientConfig`. -/
structure ClientConfig where
  Address : String
  ReadTimeout : Int
  WriteTimeout : Int
  DialTimeout : Int
  MaxConns : Int
  deriving DecidableEq, Repr

/-- Go `DefaultClientConfig`: ten seconds each, ten connections. -/
def DefaultClientConfig : ClientConfig :=
  { Address := ""
    ReadTimeout := 10 * 1000000000
    WriteTimeout := 10 * 1000000000
    DialTimeout := 10 * 1000000000
    MaxConns := 10 }

/-- Go `ClientConfig.setDefault`. -/
def ClientConfig.setDefault (c : ClientConfig) : ClientConfig :=
  let c1 := if c.ReadTimeout = 0 then { c with ReadTimeout := DefaultClientConfig.ReadTimeout } else c
  let c2 := if c1.WriteTimeout = 0 then { c1 with WriteTimeout := DefaultClientConfig.WriteTimeout } else c1
  let c3 := if c2.DialTimeout = 0 then { c2 with DialTimeout := DefaultClientConfig.DialTimeout } else c2
  if c3.MaxConns ≤ 0 then { c3 with MaxConns := DefaultClientConfig.MaxConns } else c3

/-- Go `ClientConfig.Validate`. -/
def ClientConfig.Validate (c : ClientConfig) : Option Error :=
  if c.Address = "" then WrapErr (some Error.addressNotSet) else none

/-- Go `NewClient`; `dial i` is the outcome of the `i`-th `net.Dial` of
`NewPool`. -/
def NewClient (dial : Nat → Option Error) (cfg : ClientConfig) : Except Error Client :=
  match cfg.Validate with
  | some err => .error err
  | none =>
    if cfg.setDefault.Address = "" then .error (Error.wrap Error.remoteAddressNotSpecified)
    else
      match NewPool dial cfg.setDefault.MaxConns with
      | .error err => .error err
      | .ok pool =>
        .ok { readTimeout := cfg.setDefault.ReadTimeout
              writeTimeout := cfg.setDefault.WriteTimeout
              pool := pool }

/-- What a `WithSession` call leaves: how it ended, the client, the state
`fn` works on, and the ghost number of times `fn` was run. -/
structure Session (σ : Type) where
  result : Outcome (Option Error)
  client : Client
  world : σ
  fnCalls : Nat

/-- Go `Client.WithSession`.  `fn` receives the acquired connection and works
on a state `σ` disjoint from the pool; the deferred `Release` runs after it
and its error is dropped. -/
def Client.WithSession {σ : Type} (c : Client) (fn : Option ConnPtr → σ → Option Error × σ)
    (w : σ) : Session σ :=
  match c.pool.Acquire with
  | ((_, some err), p1) =>
    { result := .returned (some err), client := { c with pool := p1 }, world := w, fnCalls := 0 }
  | ((conn, none), p1) =>
    match (p1.Release conn).1 with
    | .panicked =>
      { result := .panicked, client := { c with pool := (p1.Release conn).2 },
        world := (fn conn w).2, fnCalls := 1 }
    | .returned _ =>
      { result := .returned (fn conn w).1, client := { c with pool := (p1.Release conn).2 },
        world := (fn conn w).2, fnCalls := 1 }

/-! ## Notions the theorems are stated with -/

/-- One attempt on the latch of a `WithContext` call: by the goroutine once
`fn` has returned, or by the `ctx.Done()` case of the `select`. -/
inductive Attempt where
  | work
  | deadline
  deriving DecidableEq, Repr

/-- The shared variables after one attempt. -/
def Exec.attempt {σ : Type} (fn cleanup : σ → Option Error × σ) (x : Exec σ) :
    Attempt → Exec σ
  | .work => Exec.worker fn cleanup x
  | .deadline => Exec.deadline cleanup x

/-- The connection after `n` calls of `Close`. -/
def closeTimes : Nat → Connection → Connection
  | 0, c => c
  | n + 1, c => closeTimes n c.Close.2

/-- The connection is closed: the close notification has been emitted and
`Close` of the socket has been called. -/
def Connection.isClosed (c : Connection) : Prop :=
  1 ≤ c.closeNotifier ∧ 1 ≤ c.conn.closeCalls

/-- The latch of `Close` is set only when its body has run.  True of every
`NewConnection` and kept by every method. -/
def Connection.latchSound (c : Connection) : Prop :=
  c.notifyOnce = true → c.isClosed

/-- A handler body in which every path calls `Next` at most once. -/
def Handler.nextAtMostOnce : Handler → Prop
  | .ret _ => True
  | .act _ k => ∀ ctx, Handler.nextAtMostOnce (k ctx)
  | .next k => ∀ err, Handler.neverNext (k err)

/-- Whether the handler body, started in the context `ctx`, calls `Next`:
whether the path its actions take from `ctx` reaches a call of `Next` before
it returns. -/
def Handler.reachesNext : Handler → ServerContext → Bool
  | .ret _, _ => false
  | .act f k, ctx => Handler.reachesNext (k ctx) { f ctx with handlerIdx := ctx.handlerIdx }
  | .next _, _ => true

/-- The context the handler body, started in `ctx`, has made when it first
calls `Next` (or when it returns, if it never calls `Next`). -/
def Handler.atFirstNext : Handler → ServerContext → ServerContext
  | .ret _, ctx => ctx
  | .act f k, ctx => Handler.atFirstNext (k ctx) { f ctx with handlerIdx := ctx.handlerIdx }
  | .next _, ctx => ctx

/-- The context in which handler `j` of the chain starts in a loop
iteration on `ctx`, as long as every handler before it calls `Next`:
handler 0 starts in the context of the loop with the cursor at 1, handler
`j + 1` in the context handler `j` has made at its first call of `Next`,
with the cursor one further. -/
def startContext (handlers : List Handler) (ctx : ServerContext) : Nat → ServerContext
  | 0 => { ctx with handlerIdx := 1 }
  | j + 1 =>
    match handlers[j]? with
    | some h =>
      { Handler.atFirstNext h (startContext handlers ctx j) with handlerIdx := j + 2 }
    | none => { startContext handlers ctx j with handlerIdx := j + 2 }

/-- The rest of the handler body, started in `ctx`, after its first call of
`Next` has returned `err`. -/
def Handler.afterFirstNext : Handler → ServerContext → Option Error → Handler
  | .ret e, _, _ => .ret e
  | .act f k, ctx, err =>
    Handler.afterFirstNext (k ctx) { f ctx with handlerIdx := ctx.handlerIdx } err
  | .next k, _, err => k err

/-- In the loop iteration on `ctx`, handler `h`, the `i`-th of the chain,
calls `Next` exactly once: it calls `Next` in the context it starts in, and
when that call (made with the handlers `0, ..., i` invoked so far) has
returned, the rest of its body returns without calling `Next` again. -/
def callsNextOnce (handlers : List Handler) (ctx : ServerContext) (i : Nat) (h : Handler) :
    Prop :=
  h.reachesNext (startContext handlers ctx i) = true ∧
  ∀ err, (Next handlers (h.atFirstNext (startContext handlers ctx i), List.range (i + 1))).1 =
      .returned err →
    (h.afterFirstNext (startContext handlers ctx i) err).reachesNext
      (Next handlers (h.atFirstNext (startContext handlers ctx i), List.range (i + 1))).2.1 =
      false

/-- A call that keeps the checkout discipline: `Release` is not given a
connection owned by a slot that is free. -/
def PoolOp.disciplined (p : Pool) : PoolOp → Prop
  | .acquire => True
  | .release none => True
  | .release (some c) => ∀ e ∈ p.pool, e.conn = c → e.acquired ≠ 0

/-- A sequence of calls each of which keeps the discipline in the state it
is made in. -/
def Pool.disciplinedRun : Pool → List PoolOp → Prop
  | _, [] => True
  | p, op :: rest => op.disciplined p ∧ Pool.disciplinedRun (p.step op) rest

/-! ## Example inputs -/

/-- A pool of three slots, the first one taken. -/
def examplePool : Pool :=
  { pool := [⟨1, 10⟩, ⟨0, 11⟩, ⟨0, 12⟩], clientWaiter := { size := 3, cur := 1 }, maxSize := 3 }

/-- A client over `examplePool`. -/
def exampleClient : Client := { readTimeout := 5, writeTimeout := 5, pool := examplePool }

/-- A pool of two slots, both taken. -/
def fullPool : Pool :=
  { pool := [⟨1, 20⟩, ⟨1, 21⟩], clientWaiter := { size := 2, cur := 2 }, maxSize := 2 }

/-- A session body that fails after touching its state. -/
def exampleFn : Option ConnPtr → Nat → Option Error × Nat :=
  fun _ w => (some (Error.ext 7), w + 1)

/-- A socket with three bytes to deliver. -/
def exampleSocket : Socket :=
  { reads := [⟨[7, 8, 9], none⟩], writes := [], closeErr := none,
    readLog := [], writeLog := [], closeCalls := 0 }

/-- A fresh connection over `exampleSocket`. -/
def exampleConn : Connection := NewConnection exampleSocket DefaultConnectionConfig

/-- A fresh connection over a socket whose next read fails. -/
def brokenConn : Connection :=
  NewConnection { exampleSocket with reads := [⟨[], some (Error.ext 9)⟩] } DefaultConnectionConfig

/-- A unit of work that succeeds after touching its state. -/
def exampleWork : Nat → Option Error × Nat := fun n => (none, n + 1)

/-- A unit of work that fails after touching its state. -/
def exampleFailingWork : Nat → Option Error × Nat := fun n => (some (Error.ext 3), n + 1)

/-- A cleanup that reports an error of its own. -/
def exampleCleanup : Nat → Option Error × Nat := fun n => (some (Error.ext 4), n + 10)

/-- A handler that calls `Next` twice and returns the second result. -/
def callsNextTwice : Handler := .next (fun _ => .next (fun err => .ret err))

/-- A handler that returns nil without calling `Next`. -/
def returnsNil : Handler := .ret none

/-- A handler that calls `Next` and returns its result. -/
def passesOn : Handler := .next (fun err => .ret err)

/-- A handler that fails without calling `Next`. -/
def failsWith (e : Error) : Handler := .ret (some e)

/-- A handler that buffers three bytes of response and returns nil. -/
def buffersResponse : Handler :=
  .act (fun ctx => (ctx.WriteBuf [1, 2, 3]).2) (fun _ => .ret none)

/-- A context over `exampleConn` with an empty response buffer. -/
def exampleCtx : ServerContext := { handlerIdx := 0, conn := exampleConn, resp := [] }

/-- The connection `exampleConn` after `WaitForPacket` buffered its first
byte. -/
def peekedConn : Connection := exampleConn.WaitForPacket.2

/-- A client config with an address, two timeouts unset, one negative and a
negative `MaxConns`. -/
def exampleConfig : ClientConfig :=
  { Address := ":9876", ReadTimeout := 0, WriteTimeout := -3, DialTimeout := 0, MaxConns := -2 }

/-- A handler that reads one byte and returns the read error, or else calls
`Next` and returns its result. -/
def readThenNext : Handler :=
  .act (fun ctx => { ctx with conn := (ctx.conn.Read .workFirst [0]).2.1 })
    (fun ctx =>
      match (ctx.conn.Read .workFirst [0]).1.2 with
      | some err => .ret (some err)
      | none => .next (fun err => .ret err))

/-- A context over `brokenConn`, whose reads fail. -/
def brokenCtx : ServerContext := { handlerIdx := 0, conn := brokenConn, resp := [] }

/-! ## Theorems: linear search and pool -/

theorem IndexOfFrom_cas_miss (l : List poolEntry) (k : Nat)
    (h : ∀ e ∈ l, e.acquired ≠ 0) : IndexOfFrom casAcquired l k = (-1, l) := by
  induction l generalizing k with
  | nil => rfl
  | cons a t ih =>
    have ha : a.acquired ≠ 0 := h a (List.mem_cons_self _ _)
    have ht : ∀ e ∈ t, e.acquired ≠ 0 := fun e he => h e (List.mem_cons_of_mem _ he)
    simp [IndexOfFrom, casAcquired, ha, ih (k + 1) ht]

theorem IndexOfFrom_cas_hit (l : List poolEntry) (k i : Nat) (e : poolEntry)
    (hi : l[i]? = some e) (hfree : e.acquired = 0)
    (hbefore : ∀ j e', j < i → l[j]? = some e' → e'.acquired ≠ 0) :
    IndexOfFrom casAcquired l k = (((k + i : Nat) : Int), l.set i { e with acquired := 1 }) := by
  induction l generalizing k i with
  | nil => simp at hi
  | cons a t ih =>
    cases i with
    | zero =>
      simp at hi
      subst hi
      simp [IndexOfFrom, casAcquired, hfree]
    | succ i =>
      simp at hi
      have ha : a.acquired ≠ 0 := hbefore 0 a (Nat.succ_pos _) (by simp)
      have ht : ∀ j e', j < i → t[j]? = some e' → e'.acquired ≠ 0 := by
        intro j e' hj hje
        exact hbefore (j + 1) e' (Nat.succ_lt_succ hj) (by simpa using hje)
      have := ih (k + 1) i hi ht
      simp [IndexOfFrom, casAcquired, ha, this]
      omega

/-- C3. `Acquire` on a pool whose gate admits the caller: when slot `i` is
the lowest-index free slot, the call returns that slot's connection with no
error, the slots afterwards are the slots before with slot `i` marked taken
(every other slot as it was), and the gate holds one more unit; when no slot
is free, it returns no connection and the availability error. -/
theorem Acquire_takes_lowest_free_slot (p : Pool)
    (hgate : p.clientWaiter.cur + 1 ≤ p.clientWaiter.size) :
    (∀ (i : Nat) (e : poolEntry), p.pool[i]? = some e → e.acquired = 0 →
        (∀ j e', j < i → p.pool[j]? = some e' → e'.acquired ≠ 0) →
        p.Acquire.1 = (some e.conn, none) ∧
        p.Acquire.2.pool = p.pool.set i { e with acquired := 1 } ∧
        p.Acquire.2.clientWaiter.cur = p.clientWaiter.cur + 1) ∧
    ((∀ e ∈ p.pool, e.acquired ≠ 0) →
        p.Acquire.1 = (none, some Error.noAvailable) ∧ p.Acquire.2.pool = p.pool) := by
  constructor
  · intro i e hi hfree hbefore
    have hlt : i < p.pool.length := by
      rcases List.getElem?_eq_some_iff.mp hi with ⟨h, _⟩
      exact h
    have hidx := IndexOfFrom_cas_hit p.pool 0 i e hi hfree hbefore
    have hne : ((0 + i : Nat) : Int) ≠ -1 := by omega
    simp [Pool.Acquire, Weighted.Acquire, hgate, Find, IndexOf, hidx, hlt]
  · intro hall
    have hidx := IndexOfFrom_cas_miss p.pool 0 hall
    simp [Pool.Acquire, Weighted.Acquire, hgate, Find, IndexOf, hidx]

/-- Witness of `Acquire_takes_lowest_free_slot`: in `examplePool` slot 1 is
the lowest free slot. -/
theorem Acquire_takes_lowest_free_slot_witness :
    examplePool.clientWaiter.cur + 1 ≤ examplePool.clientWaiter.size ∧
    examplePool.Acquire.1 = (some 11, none) ∧
    examplePool.Acquire.2.pool = [⟨1, 10⟩, ⟨1, 11⟩, ⟨0, 12⟩] ∧
    examplePool.Acquire.2.clientWaiter.cur = 2 :=
  ⟨by decide,
   (Acquire_takes_lowest_free_slot examplePool (by decide)).1 1 ⟨0, 11⟩ (by decide) (by decide)
     (by
       intro j e' hj h
       have hj0 : j = 0 := by omega
       subst hj0
       simp [examplePool] at h
       subst h
       decide)⟩

theorem IndexOfFrom_pure_snd {T : Type} (q : T → Bool) (l : List T) (k : Nat) :
    (IndexOfFrom (fun e => (q e, e)) l k).2 = l := by
  induction l generalizing k with
  | nil => rfl
  | cons a t ih =>
    by_cases ha : q a = true <;> simp [IndexOfFrom, ha, ih]

theorem IndexOfFrom_pure_none {T : Type} (q : T → Bool) (l : List T) (k : Nat)
    (h : ∀ e ∈ l, q e = false) : (IndexOfFrom (fun e => (q e, e)) l k).1 = -1 := by
  induction l generalizing k with
  | nil => rfl
  | cons a t ih =>
    have ha : q a = false := h a (List.mem_cons_self _ _)
    have ht : ∀ e ∈ t, q e = false := fun e he => h e (List.mem_cons_of_mem _ he)
    simp [IndexOfFrom, ha, ih (k + 1) ht]

theorem IndexOfFrom_pure_some {T : Type} (q : T → Bool) (l : List T) (k : Nat)
    (h : ∃ e ∈ l, q e = true) :
    ∃ i, i < l.length ∧ (IndexOfFrom (fun e => (q e, e)) l k).1 = ((k + i : Nat) : Int) := by
  induction l generalizing k with
  | nil => simp at h
  | cons a t ih =>
    by_cases ha : q a = true
    · exact ⟨0, by simp, by simp [IndexOfFrom, ha]⟩
    · have ht : ∃ e ∈ t, q e = true := by
        rcases h with ⟨e, he, hq⟩
        rcases List.mem_cons.mp he with rfl | he'
        · exact absurd hq ha
        · exact ⟨e, he', hq⟩
      rcases ih (k + 1) ht with ⟨i, hi, hidx⟩
      refine ⟨i + 1, by simp [hi], ?_⟩
      simp [IndexOfFrom, ha, hidx]
      omega

theorem Find_conn_none (l : List poolEntry) (c : ConnPtr) (h : ∀ e ∈ l, e.conn ≠ c) :
    (Find l (fun entry => (decide (entry.conn = c), entry))).1 = none := by
  have := IndexOfFrom_pure_none (fun entry : poolEntry => decide (entry.conn = c)) l 0
    (by intro e he; simpa using h e he)
  simp [Find, IndexOf, this]

theorem Find_conn_some (l : List poolEntry) (c : ConnPtr) (h : ∃ e ∈ l, e.conn = c) :
    ∃ e', (Find l (fun entry => (decide (entry.conn = c), entry))).1 = some e' := by
  rcases IndexOfFrom_pure_some (fun entry : poolEntry => decide (entry.conn = c)) l 0
    (by rcases h with ⟨e, he, hc⟩; exact ⟨e, he, by simpa using hc⟩) with ⟨i, hi, hidx⟩
  have hsnd := IndexOfFrom_pure_snd (fun entry : poolEntry => decide (entry.conn = c)) l 0
  refine ⟨l[i], ?_⟩
  have hne : ((0 + i : Nat) : Int) ≠ -1 := by omega
  simp only [Find, IndexOf, hidx, hsnd]
  simp [hi]

/-- Go `Release` of a nil connection, or of one that no slot owns, returns an
error and leaves the pool as it was. -/
theorem Release_foreign (p : Pool) (conn : Option ConnPtr)
    (h : ∀ c, conn = some c → ∀ e ∈ p.pool, e.conn ≠ c) :
    (∃ err, (p.Release conn).1 = .returned (some err)) ∧ (p.Release conn).2 = p := by
  cases conn with
  | none => exact ⟨⟨_, rfl⟩, rfl⟩
  | some c =>
    have := Find_conn_none p.pool c (h c rfl)
    simp [Pool.Release, this, WrapErr]

/-- Go `Release` of a connection that a slot owns, with a unit outstanding at
the gate: it returns nil, stores 0 in the first slot owning the connection
and gives one unit back, whatever that slot's flag was. -/
theorem Release_owned (p : Pool) (c : ConnPtr) (h : ∃ e ∈ p.pool, e.conn = c)
    (hcur : 1 ≤ p.clientWaiter.cur) :
    p.Release (some c) =
      (.returned none,
       { p with pool := storeReleased c p.pool,
                clientWaiter := { p.clientWaiter with cur := p.clientWaiter.cur - 1 } }) := by
  rcases Find_conn_some p.pool c h with ⟨e', he'⟩
  have hlt : ¬ p.clientWaiter.cur < 1 := by omega
  simp [Pool.Release, he', Weighted.Release, hlt]

/-- C1. The accounting invariant does not survive a `Release` of a
connection whose slot is free: on a fresh pool of capacity 2, after
`Acquire` (slot 0 taken, one unit outstanding) the call `Release(conn1)`,
`conn1` being the connection of the free slot 1, returns nil and gives a
unit back, leaving the gate with 0 units outstanding and 1 slot flagged
acquired. -/
theorem accounting_broken_by_release_of_free_slot :
    ∃ p0 : Pool, NewPool (fun _ => none) 2 = .ok p0 ∧
      (p0.run [.acquire]).flags = [1, 0] ∧
      (p0.run [.acquire]).clientWaiter.cur = 1 ∧
      ((p0.run [.acquire]).Release (some 1)).1 = .returned none ∧
      (p0.run [.acquire, .release (some 1)]).clientWaiter.cur = 0 ∧
      (p0.run [.acquire, .release (some 1)]).acquiredCount = 1 :=
  ⟨_, rfl, by decide, by decide, by decide, by decide, by decide⟩

/-- C2. `Release` of an already released connection does not fail: on a
fresh pool of capacity 2 with both connections acquired and connection 0
released, a second `Release(conn0)` returns nil instead of an error and
takes the gate from 1 unit outstanding to 0 while slot 1 is still acquired. -/
theorem second_release_returns_nil_and_moves_gate :
    ∃ p0 : Pool, NewPool (fun _ => none) 2 = .ok p0 ∧
      (p0.run [.acquire, .acquire, .release (some 0)]).flags = [0, 1] ∧
      (p0.run [.acquire, .acquire, .release (some 0)]).clientWaiter.cur = 1 ∧
      ((p0.run [.acquire, .acquire, .release (some 0)]).Release (some 0)).1 = .returned none ∧
      ((p0.run [.acquire, .acquire, .release (some 0)]).Release (some 0)).2.flags = [0, 1] ∧
      ((p0.run [.acquire, .acquire, .release (some 0)]).Release (some 0)).2.clientWaiter.cur = 0 :=
  ⟨_, rfl, by decide, by decide, by decide, by decide, by decide⟩

/-! ## Theorems: sessions -/

theorem first_free_or_none (l : List poolEntry) :
    (∀ e ∈ l, e.acquired ≠ 0) ∨
    ∃ (i : Nat) (e : poolEntry), l[i]? = some e ∧ e.acquired = 0 ∧
      ∀ (j : Nat) (e' : poolEntry), j < i → l[j]? = some e' → e'.acquired ≠ 0 := by
  induction l with
  | nil => left; simp
  | cons a t ih =>
    by_cases ha : a.acquired = 0
    · right
      exact ⟨0, a, by simp, ha, by intro j e' hj; omega⟩
    · rcases ih with hall | ⟨i, e, hi, hfree, hbefore⟩
      · left
        intro e he
        rcases List.mem_cons.mp he with rfl | he'
        · exact ha
        · exact hall e he'
      · right
        refine ⟨i + 1, e, by simpa using hi, hfree, ?_⟩
        intro j e' hj hje
        cases j with
        | zero =>
          simp at hje
          subst hje
          exact ha
        | succ j =>
          exact hbefore j e' (by omega) (by simpa using hje)

theorem Acquire_ok_shape (p : Pool) (h : p.Acquire.1.2 = none) :
    ∃ (i : Nat) (e : poolEntry), p.pool[i]? = some e ∧ e.acquired = 0 ∧
      p.Acquire =
        ((some e.conn, none),
         { p with pool := p.pool.set i { e with acquired := 1 },
                  clientWaiter := { p.clientWaiter with cur := p.clientWaiter.cur + 1 } }) := by
  by_cases hgate : p.clientWaiter.cur + 1 ≤ p.clientWaiter.size
  · rcases first_free_or_none p.pool with hall | ⟨i, e, hi, hfree, hbefore⟩
    · have hidx := IndexOfFrom_cas_miss p.pool 0 hall
      simp [Pool.Acquire, Weighted.Acquire, hgate, Find, IndexOf, hidx] at h
    · have hlt : i < p.pool.length := by
        rcases List.getElem?_eq_some_iff.mp hi with ⟨hh, _⟩
        exact hh
      have hidx := IndexOfFrom_cas_hit p.pool 0 i e hi hfree hbefore
      have hne : ((0 + i : Nat) : Int) ≠ -1 := by omega
      refine ⟨i, e, hi, hfree, ?_⟩
      simp [Pool.Acquire, Weighted.Acquire, hgate, Find, IndexOf, hidx, hlt]
  · simp [Pool.Acquire, Weighted.Acquire, hgate] at h

theorem storeReleased_set (l : List poolEntry) (i : Nat) (e : poolEntry) (a : Int)
    (hnodup : (l.map (fun entry => entry.conn)).Nodup) (hi : l[i]? = some e) :
    storeReleased e.conn (l.set i { e with acquired := a }) = l.set i { e with acquired := 0 } := by
  induction l generalizing i with
  | nil => simp at hi
  | cons b t ih =>
    cases i with
    | zero =>
      simp at hi
      subst hi
      simp [storeReleased]
    | succ i =>
      simp at hi
      have hmem : e ∈ t := List.mem_iff_getElem?.mpr ⟨i, hi⟩
      simp only [List.map_cons, List.nodup_cons] at hnodup
      have hb : b.conn ≠ e.conn := by
        intro hbe
        exact hnodup.1 (List.mem_map.mpr ⟨e, hmem, hbe.symm⟩)
      simp [storeReleased, hb, ih i hnodup.2 hi]

theorem set_same_entry (l : List poolEntry) (i : Nat) (e : poolEntry)
    (hi : l[i]? = some e) (hfree : e.acquired = 0) :
    l.set i { e with acquired := 0 } = l := by
  have he : ({ e with acquired := 0 } : poolEntry) = e := by
    cases e
    simp at hfree
    simp [hfree]
  rw [he]
  induction l generalizing i with
  | nil => rfl
  | cons b t ih =>
    cases i with
    | zero =>
      simp at hi
      simp [hi]
    | succ i =>
      simp at hi
      simp [ih i hi]

/-- Go `Release` of the connection `Acquire` just returned undoes it: the pool
is the pool before the `Acquire`. -/
theorem Release_after_Acquire (p : Pool)
    (hdistinct : (p.pool.map (fun entry => entry.conn)).Nodup) (h : p.Acquire.1.2 = none) :
    p.Acquire.2.Release p.Acquire.1.1 = (.returned none, p) := by
  rcases Acquire_ok_shape p h with ⟨i, e, hi, hfree, hacq⟩
  have hlt : i < p.pool.length := by
    rcases List.getElem?_eq_some_iff.mp hi with ⟨hh, _⟩
    exact hh
  rw [hacq]
  have hown : ∃ e' ∈ p.pool.set i { e with acquired := 1 }, e'.conn = e.conn :=
    ⟨{ e with acquired := 1 }, List.mem_iff_getElem?.mpr ⟨i, by simp [hlt]⟩, rfl⟩
  have hrel := Release_owned
    { p with pool := p.pool.set i { e with acquired := 1 },
             clientWaiter := { p.clientWaiter with cur := p.clientWaiter.cur + 1 } }
    e.conn hown (by simp)
  simp only at hrel
  rw [hrel, storeReleased_set p.pool i e 1 hdistinct hi, set_same_entry p.pool i e hi hfree]
  simp

/-- C10. `WithSession` on a client whose pool has pairwise distinct
connections (as every pool built by `NewPool` has): when `Acquire` succeeds,
the call returns exactly the result of `fn` run once on the acquired
connection, and the pool afterwards (every acquired flag, the gate's count)
is the pool before the call, whether `fn` returned an error or nil; when
`Acquire` fails, `fn` is not run, the state `fn` works on is untouched and
the error of `Acquire` is returned. -/
theorem WithSession_runs_fn_and_restores_pool {σ : Type} (c : Client)
    (fn : Option ConnPtr → σ → Option Error × σ) (w : σ)
    (hdistinct : (c.pool.pool.map (fun entry => entry.conn)).Nodup) :
    (c.pool.Acquire.1.2 = none →
      (c.WithSession fn w).result = .returned (fn c.pool.Acquire.1.1 w).1 ∧
      (c.WithSession fn w).world = (fn c.pool.Acquire.1.1 w).2 ∧
      (c.WithSession fn w).fnCalls = 1 ∧
      (c.WithSession fn w).client.pool.flags = c.pool.flags ∧
      (c.WithSession fn w).client.pool.clientWaiter.cur = c.pool.clientWaiter.cur ∧
      (c.WithSession fn w).client = c) ∧
    (∀ err, c.pool.Acquire.1.2 = some err →
      (c.WithSession fn w).result = .returned (some err) ∧
      (c.WithSession fn w).fnCalls = 0 ∧
      (c.WithSession fn w).world = w) := by
  constructor
  · intro hok
    have hrel := Release_after_Acquire c.pool hdistinct hok
    have hsplit : c.pool.Acquire = ((c.pool.Acquire.1.1, none), c.pool.Acquire.2) := by
      rw [← hok]
    have hsess : c.WithSession fn w =
        { result := .returned (fn c.pool.Acquire.1.1 w).1, client := c,
          world := (fn c.pool.Acquire.1.1 w).2, fnCalls := 1 } := by
      unfold Client.WithSession
      rw [hsplit]
      simp only
      rw [hrel]
    rw [hsess]
    simp
  · intro err herr
    have hsplit : c.pool.Acquire = ((c.pool.Acquire.1.1, some err), c.pool.Acquire.2) := by
      rw [← herr]
    unfold Client.WithSession
    rw [hsplit]
    simp

/-- Witness of `WithSession_runs_fn_and_restores_pool`: a successful session
on `exampleClient`, and a refused one on a client whose pool is full. -/
theorem WithSession_runs_fn_and_restores_pool_witness :
    ((exampleClient.pool.pool.map (fun entry => entry.conn)).Nodup ∧
      exampleClient.pool.Acquire.1.2 = none ∧
      (exampleClient.WithSession exampleFn 0).result = .returned (some (Error.ext 7)) ∧
      (exampleClient.WithSession exampleFn 0).client = exampleClient) ∧
    (fullPool.Acquire.1.2 = some (Error.ext 0) ∧
      (({ exampleClient with pool := fullPool }).WithSession exampleFn 0).fnCalls = 0) :=
  ⟨⟨by decide, by decide,
    ((WithSession_runs_fn_and_restores_pool exampleClient exampleFn 0 (by decide)).1
      (by decide)).1,
    ((WithSession_runs_fn_and_restores_pool exampleClient exampleFn 0 (by decide)).1
      (by decide)).2.2.2.2.2⟩,
   by decide,
   ((WithSession_runs_fn_and_restores_pool { exampleClient with pool := fullPool } exampleFn 0
      (by decide)).2 (Error.ext 0) (by decide)).2.1⟩

/-! ## Theorems: accounting under the checkout discipline -/

theorem count_set_taken (l : List poolEntry) (i : Nat) (e : poolEntry)
    (hi : l[i]? = some e) (hfree : e.acquired = 0) :
    takenCount (l.set i { e with acquired := 1 }) = takenCount l + 1 := by
  induction l generalizing i with
  | nil => simp at hi
  | cons a t ih =>
    cases i with
    | zero =>
      simp at hi
      subst hi
      simp [takenCount, hfree]
      omega
    | succ i =>
      simp at hi
      have := ih i hi
      simp [takenCount, this]
      omega

theorem count_storeReleased (l : List poolEntry) (c : ConnPtr)
    (hown : ∃ e ∈ l, e.conn = c) (hacq : ∀ e ∈ l, e.conn = c → e.acquired ≠ 0) :
    takenCount (storeReleased c l) + 1 = takenCount l := by
  induction l with
  | nil => simp at hown
  | cons a t ih =>
    by_cases hac : a.conn = c
    · have ha : a.acquired ≠ 0 := hacq a (List.mem_cons_self _ _) hac
      simp [storeReleased, hac, takenCount, ha]
      omega
    · have hown' : ∃ e ∈ t, e.conn = c := by
        rcases hown with ⟨e, he, hc⟩
        rcases List.mem_cons.mp he with rfl | he'
        · exact absurd hc hac
        · exact ⟨e, he', hc⟩
      have := ih hown' (fun e he => hacq e (List.mem_cons_of_mem _ he))
      simp only [storeReleased, hac, if_false, takenCount]
      omega

theorem storeReleased_length (c : ConnPtr) (l : List poolEntry) :
    (storeReleased c l).length = l.length := by
  induction l with
  | nil => rfl
  | cons a t ih =>
    by_cases hac : a.conn = c <;> simp [storeReleased, hac, ih]

theorem count_le_length (l : List poolEntry) : takenCount l ≤ l.length := by
  induction l with
  | nil => simp [takenCount]
  | cons a t ih =>
    simp only [takenCount, List.length_cons]
    split <;> omega

theorem count_eq_length_of_all_taken (l : List poolEntry) (h : ∀ e ∈ l, e.acquired ≠ 0) :
    takenCount l = l.length := by
  induction l with
  | nil => simp [takenCount]
  | cons a t ih =>
    have ha : a.acquired ≠ 0 := h a (List.mem_cons_self _ _)
    have := ih (fun e he => h e (List.mem_cons_of_mem _ he))
    simp [takenCount, ha, this]
    omega

theorem count_zero_of_all_free (l : List poolEntry) (h : ∀ e ∈ l, e.acquired = 0) :
    takenCount l = 0 := by
  induction l with
  | nil => simp [takenCount]
  | cons a t ih =>
    have ha : a.acquired = 0 := h a (List.mem_cons_self _ _)
    have := ih (fun e he => h e (List.mem_cons_of_mem _ he))
    simp [takenCount, ha, this]

theorem Acquire_blocked (p : Pool) (hgate : ¬ p.clientWaiter.cur + 1 ≤ p.clientWaiter.size) :
    p.Acquire = ((none, some (Error.ext 0)), p) := by
  simp [Pool.Acquire, Weighted.Acquire, hgate]

theorem Acquire_hit (p : Pool) (hgate : p.clientWaiter.cur + 1 ≤ p.clientWaiter.size)
    (i : Nat) (e : poolEntry) (hi : p.pool[i]? = some e) (hfree : e.acquired = 0)
    (hbefore : ∀ (j : Nat) (e' : poolEntry), j < i → p.pool[j]? = some e' → e'.acquired ≠ 0) :
    p.Acquire =
      ((some e.conn, none),
       { p with pool := p.pool.set i { e with acquired := 1 },
                clientWaiter := { p.clientWaiter with cur := p.clientWaiter.cur + 1 } }) := by
  have hlt : i < p.pool.length := by
    rcases List.getElem?_eq_some_iff.mp hi with ⟨hh, _⟩
    exact hh
  have hidx := IndexOfFrom_cas_hit p.pool 0 i e hi hfree hbefore
  have hne : ((0 + i : Nat) : Int) ≠ -1 := by omega
  simp [Pool.Acquire, Weighted.Acquire, hgate, Find, IndexOf, hidx, hlt]

theorem dialEntries_spec (dial : Nat → Option Error) (k i : Nat) (l : List poolEntry)
    (h : dialEntries dial k i = .ok l) :
    l.length = k ∧ (∀ e ∈ l, e.acquired = 0) ∧ l.map (fun e => e.conn) = List.range' i k := by
  induction k generalizing i l with
  | zero =>
    simp [dialEntries] at h
    subst h
    simp
  | succ k ih =>
    simp only [dialEntries] at h
    cases hd : dial i with
    | some err => simp [hd] at h
    | none =>
      simp only [hd] at h
      cases hrest : dialEntries dial k (i + 1) with
      | error err => simp [hrest] at h
      | ok rest =>
        simp only [hrest, Except.ok.injEq] at h
        subst h
        obtain ⟨h1, h2, h3⟩ := ih (i + 1) rest hrest
        refine ⟨by simp [h1], ?_, ?_⟩
        · intro e he
          rcases List.mem_cons.mp he with rfl | he'
          · rfl
          · exact h2 e he'
        · simp [h3, List.range'_succ]

/-- A pool built by `NewPool` with size `N`: `N` free slots owning pairwise
distinct connections, and a gate of `N` units with none outstanding. -/
theorem NewPool_spec (dial : Nat → Option Error) (N : Int) (p : Pool)
    (h : NewPool dial N = .ok p) :
    0 < N ∧ p.pool.length = N.toNat ∧ p.clientWaiter = { size := N.toNat, cur := 0 } ∧
    p.acquiredCount = 0 ∧ (p.pool.map (fun e => e.conn)).Nodup := by
  unfold NewPool at h
  by_cases hN : N ≤ 0
  · simp [hN] at h
  · simp only [hN, if_false] at h
    cases hd : dialEntries dial N.toNat 0 with
    | error err => simp [hd] at h
    | ok entries =>
      simp only [hd, Except.ok.injEq] at h
      subst h
      obtain ⟨h1, h2, h3⟩ := dialEntries_spec dial N.toNat 0 entries hd
      refine ⟨by omega, h1, rfl, ?_, ?_⟩
      · exact count_zero_of_all_free entries h2
      · simp only [h3]
        exact List.nodup_range' 0 N.toNat

/-- One disciplined call keeps the accounting: the gate is as large as the
pool has slots and its outstanding count is the number of acquired slots. -/
theorem step_keeps_accounting (p : Pool) (op : PoolOp) (hd : op.disciplined p)
    (hsize : p.clientWaiter.size = p.pool.length)
    (hcur : p.clientWaiter.cur = p.acquiredCount) :
    (p.step op).clientWaiter.size = (p.step op).pool.length ∧
    (p.step op).clientWaiter.cur = (p.step op).acquiredCount := by
  cases op with
  | acquire =>
    simp only [Pool.step]
    by_cases hgate : p.clientWaiter.cur + 1 ≤ p.clientWaiter.size
    · rcases first_free_or_none p.pool with hall | ⟨i, e, hi, hfree, hbefore⟩
      · have := count_eq_length_of_all_taken p.pool hall
        simp only [Pool.acquiredCount] at hcur
        omega
      · have hcount := count_set_taken p.pool i e hi hfree
        rw [Acquire_hit p hgate i e hi hfree hbefore]
        simp only [Pool.acquiredCount, List.length_set] at hcur ⊢
        exact ⟨hsize, by omega⟩
    · rw [Acquire_blocked p hgate]
      exact ⟨hsize, hcur⟩
  | release conn =>
    simp only [Pool.step]
    cases conn with
    | none => simp [Pool.Release, hsize, hcur]
    | some c =>
      by_cases hown : ∃ e ∈ p.pool, e.conn = c
      · have hcount := count_storeReleased p.pool c hown hd
        have hpos : 1 ≤ p.clientWaiter.cur := by
          simp only [Pool.acquiredCount] at hcur
          omega
        rw [Release_owned p c hown hpos]
        simp only [Pool.acquiredCount] at hcur ⊢
        simp only [storeReleased_length]
        exact ⟨hsize, by omega⟩
      · have hforeign := Release_foreign p (some c) (by
          intro c' hc' e he hce
          cases hc'
          exact hown ⟨e, he, hce⟩)
        rw [hforeign.2]
        exact ⟨hsize, hcur⟩

theorem step_keeps_length (p : Pool) (op : PoolOp) :
    (p.step op).pool.length = p.pool.length := by
  cases op with
  | acquire =>
    simp only [Pool.step]
    by_cases hgate : p.clientWaiter.cur + 1 ≤ p.clientWaiter.size
    · rcases first_free_or_none p.pool with hall | ⟨i, e, hi, hfree, hbefore⟩
      · have hidx := IndexOfFrom_cas_miss p.pool 0 hall
        simp [Pool.Acquire, Weighted.Acquire, hgate, Find, IndexOf, hidx]
      · rw [Acquire_hit p hgate i e hi hfree hbefore]
        simp
    · rw [Acquire_blocked p hgate]
  | release conn =>
    simp only [Pool.step]
    cases conn with
    | none => rfl
    | some c =>
      simp only [Pool.Release]
      split
      · rfl
      · split <;> simp [storeReleased_length]

theorem storeReleased_conns (c : ConnPtr) (l : List poolEntry) :
    (storeReleased c l).map (fun e => e.conn) = l.map (fun e => e.conn) := by
  induction l with
  | nil => rfl
  | cons a t ih =>
    by_cases hac : a.conn = c <;> simp [storeReleased, hac, ih]

theorem set_taken_conns (l : List poolEntry) (i : Nat) (e : poolEntry) (hi : l[i]? = some e) :
    (l.set i { e with acquired := 1 }).map (fun e => e.conn) = l.map (fun e => e.conn) := by
  induction l generalizing i with
  | nil => rfl
  | cons a t ih =>
    cases i with
    | zero =>
      simp at hi
      subst hi
      simp
    | succ i =>
      simp at hi
      simp [ih i hi]

/-- No call changes which connection a slot owns: the connections stay
pairwise distinct in every state reached from a fresh pool. -/
theorem step_keeps_conns (p : Pool) (op : PoolOp) :
    (p.step op).pool.map (fun e => e.conn) = p.pool.map (fun e => e.conn) := by
  cases op with
  | acquire =>
    simp only [Pool.step]
    by_cases hgate : p.clientWaiter.cur + 1 ≤ p.clientWaiter.size
    · rcases first_free_or_none p.pool with hall | ⟨i, e, hi, hfree, hbefore⟩
      · have hidx := IndexOfFrom_cas_miss p.pool 0 hall
        simp [Pool.Acquire, Weighted.Acquire, hgate, Find, IndexOf, hidx]
      · rw [Acquire_hit p hgate i e hi hfree hbefore]
        exact set_taken_conns p.pool i e hi
    · rw [Acquire_blocked p hgate]
  | release conn =>
    simp only [Pool.step]
    cases conn with
    | none => rfl
    | some c =>
      simp only [Pool.Release]
      split
      · rfl
      · split <;> simp [storeReleased_conns]

theorem run_keeps_accounting (ops : List PoolOp) :
    ∀ p : Pool, p.disciplinedRun ops → p.clientWaiter.size = p.pool.length →
      p.clientWaiter.cur = p.acquiredCount →
      (p.run ops).clientWaiter.size = (p.run ops).pool.length ∧
      (p.run ops).clientWaiter.cur = (p.run ops).acquiredCount ∧
      (p.run ops).pool.length = p.pool.length := by
  induction ops with
  | nil => intro p _ hsize hcur; exact ⟨hsize, hcur, rfl⟩
  | cons op rest ih =>
    intro p hd hsize hcur
    obtain ⟨h1, h2⟩ := step_keeps_accounting p op hd.1 hsize hcur
    obtain ⟨g1, g2, g3⟩ := ih (p.step op) hd.2 h1 h2
    have hlen : (p.step op).pool.length = p.pool.length := step_keeps_length p op
    exact ⟨g1, g2, by simpa [Pool.run] using g3.trans hlen⟩

/-- The accounting invariant of the pool, for the sequences of calls that
keep the checkout discipline: in every state reached from a fresh pool of
capacity `N` at most `N` slots are acquired, the gate's outstanding count is
the number of acquired slots, and `Acquire` succeeds only when that count is
below `N`. -/
theorem accounting_under_discipline (dial : Nat → Option Error) (N : Int) (p0 : Pool)
    (hnew : NewPool dial N = .ok p0) (ops : List PoolOp) (hd : p0.disciplinedRun ops) :
    ((p0.run ops).acquiredCount : Int) ≤ N ∧
    (p0.run ops).clientWaiter.cur = (p0.run ops).acquiredCount ∧
    ((p0.run ops).Acquire.1.2 = none → ((p0.run ops).clientWaiter.cur : Int) < N) := by
  obtain ⟨hN, hlen, hgate, hcount, _⟩ := NewPool_spec dial N p0 hnew
  obtain ⟨h1, h2, h3⟩ := run_keeps_accounting ops p0 hd (by simp [hgate, hlen])
    (by simp [hgate, hcount])
  have hle := count_le_length (p0.run ops).pool
  refine ⟨?_, h2, ?_⟩
  · simp only [Pool.acquiredCount]
    omega
  · intro hok
    by_cases hg : (p0.run ops).clientWaiter.cur + 1 ≤ (p0.run ops).clientWaiter.size
    · omega
    · simp [Pool.Acquire, Weighted.Acquire, hg] at hok

/-! ## Theorems: closing a connection -/

theorem closeTimes_of_latched (n : Nat) (c : Connection) (h : c.notifyOnce = true) :
    closeTimes n c = c := by
  induction n with
  | zero => rfl
  | succ n ih => simp [closeTimes, Connection.Close, h, ih]

/-- C7. `Close` is idempotent: on a connection whose latch is not yet set
(such as a new one), after `n ≥ 1` calls of `Close` the socket's `Close`
has been called exactly once more and exactly one more notification has
been emitted; and after any `m ≥ 1` calls a further call returns nil and
changes nothing. -/
theorem Close_exactly_once (c : Connection) (n : Nat) (hn : 1 ≤ n)
    (hfresh : c.notifyOnce = false) :
    (closeTimes n c).conn.closeCalls = c.conn.closeCalls + 1 ∧
    (closeTimes n c).closeNotifier = c.closeNotifier + 1 ∧
    (∀ m, 1 ≤ m → (closeTimes m c).Close = (none, closeTimes m c)) := by
  have hone : ∀ m, 1 ≤ m → closeTimes m c = c.Close.2 := by
    intro m hm
    obtain ⟨k, rfl⟩ : ∃ k, m = k + 1 := ⟨m - 1, by omega⟩
    simp only [closeTimes]
    exact closeTimes_of_latched k _ (by simp [Connection.Close, hfresh])
  refine ⟨?_, ?_, ?_⟩
  · rw [hone n hn]
    simp [Connection.Close, hfresh, Socket.Close]
  · rw [hone n hn]
    simp [Connection.Close, hfresh]
  · intro m hm
    rw [hone m hm]
    simp [Connection.Close, hfresh]

/-- Witness of `Close_exactly_once`: three calls of `Close` on
`exampleConn`. -/
theorem Close_exactly_once_witness :
    (closeTimes 3 exampleConn).conn.closeCalls = exampleConn.conn.closeCalls + 1 ∧
    (closeTimes 3 exampleConn).closeNotifier = exampleConn.closeNotifier + 1 ∧
    (∀ m, 1 ≤ m → (closeTimes m exampleConn).Close = (none, closeTimes m exampleConn)) :=
  Close_exactly_once exampleConn 3 (by decide) (by decide)

/-! ## Theorems: deadline-bounded execution -/

theorem Exec.attempt_latch {σ : Type} (fn cleanup : σ → Option Error × σ) (x : Exec σ)
    (a : Attempt) (h0 : x.once = false → x.cleanups = 0) (h1 : x.cleanups ≤ 1) :
    ((Exec.attempt fn cleanup x a).once = false → (Exec.attempt fn cleanup x a).cleanups = 0) ∧
    (Exec.attempt fn cleanup x a).cleanups ≤ 1 := by
  cases a
  · simp only [Exec.attempt, Exec.worker]
    cases hres : (fn x.target).1 with
    | none => exact ⟨h0, h1⟩
    | some err =>
      simp only [Exec.onceDo, Exec.record]
      by_cases ho : x.once = true
      · simp [ho, h1]
      · have hz := h0 (by simpa using ho)
        simp [ho, hz]
  · simp only [Exec.attempt, Exec.deadline, Exec.onceDo, Exec.record]
    by_cases ho : x.once = true
    · simp [ho, h1]
    · have hz := h0 (by simpa using ho)
      simp [ho, hz]

/-- Whatever the order and number of the attempts on the latch, by the
goroutine and by the deadline case, `cleanup` is called at most once. -/
theorem cleanup_at_most_once {σ : Type} (fn cleanup : σ → Option Error × σ) (s : σ)
    (attempts : List Attempt) :
    (attempts.foldl (Exec.attempt fn cleanup)
      { target := s, once := false, timeOutErr := none, cleanups := 0 }).cleanups ≤ 1 := by
  have key : ∀ (l : List Attempt) (x : Exec σ), (x.once = false → x.cleanups = 0) →
      x.cleanups ≤ 1 → (l.foldl (Exec.attempt fn cleanup) x).cleanups ≤ 1 := by
    intro l
    induction l with
    | nil => intro x _ h1; exact h1
    | cons a t ih =>
      intro x h0 h1
      obtain ⟨g0, g1⟩ := Exec.attempt_latch fn cleanup x a h0 h1
      exact ih _ g0 g1
  exact key attempts _ (fun _ => rfl) (Nat.zero_le _)

/-- C8, counterexample. The work `exampleWork` returns nil, and only
then is the deadline received: the result is the timeout error and `cleanup`
has been called once, although `fn` completed first with no error.  With the
failing `exampleFailingWork` in the same run the result's `Err` is the
timeout error, not the error `fn` returned. -/
theorem finished_work_yet_timeout :
    (exampleWork 0).1 = none ∧
    WithContext .deadlineAfterWork exampleWork exampleCleanup 0 =
      (some { Err := Error.timedOut, CleanupErr := some (Error.ext 4) }, 11) ∧
    (WithContext.settled .deadlineAfterWork exampleWork exampleCleanup 0).cleanups = 1 ∧
    (exampleFailingWork 0).1 = some (Error.ext 3) ∧
    (WithContext .deadlineAfterWork exampleFailingWork exampleCleanup 0).1 =
      some { Err := Error.timedOut, CleanupErr := some (Error.ext 4) } := by
  decide

/-- C8, amended. Outcome table of `WithContext`, for every `fn`, `cleanup`
and initiator, by the case the `select` takes.  When the work is received:
if `fn` returned nil the result is nil and `cleanup` was not called; if `fn`
returned `e` the result has `Err = e` and `CleanupErr` the result of
`cleanup`, with one call of `cleanup`.  When the deadline is received: the
result has `Err` the timeout error and `CleanupErr` the result of `cleanup`,
with one call of `cleanup`, whether `fn` is still pending or has returned
(with or without an error) without its goroutine reaching the latch; only
when `fn` had returned `e` and its goroutine had taken the latch does the
result have `Err = e`.  In every run `cleanup` is called at most once, both
when `WithContext` returns and after the goroutine has finished. -/
theorem WithContext_outcome_table {σ : Type} (fn cleanup : σ → Option Error × σ) (s : σ) :
    ((fn s).1 = none →
      WithContext .workFirst fn cleanup s = (none, (fn s).2) ∧
      (WithContext.settled .workFirst fn cleanup s).cleanups = 0) ∧
    (∀ e, (fn s).1 = some e →
      WithContext .workFirst fn cleanup s =
        (some { Err := e, CleanupErr := (cleanup (fn s).2).1 }, (cleanup (fn s).2).2) ∧
      (WithContext.settled .workFirst fn cleanup s).cleanups = 1) ∧
    (WithContext .deadlineFirst fn cleanup s =
        (some { Err := Error.timedOut, CleanupErr := (cleanup s).1 }, (cleanup s).2) ∧
      (WithContext.atReturn .deadlineFirst fn cleanup s).cleanups = 1 ∧
      (WithContext.settled .deadlineFirst fn cleanup s).cleanups = 1 ∧
      (WithContext.settled .deadlineFirst fn cleanup s).timeOutErr =
        (WithContext.atReturn .deadlineFirst fn cleanup s).timeOutErr) ∧
    (WithContext .deadlineAfterWork fn cleanup s =
        (some { Err := Error.timedOut, CleanupErr := (cleanup (fn s).2).1 },
         (cleanup (fn s).2).2) ∧
      (WithContext.atReturn .deadlineAfterWork fn cleanup s).cleanups = 1 ∧
      (WithContext.settled .deadlineAfterWork fn cleanup s).cleanups = 1 ∧
      (WithContext.settled .deadlineAfterWork fn cleanup s).timeOutErr =
        (WithContext.atReturn .deadlineAfterWork fn cleanup s).timeOutErr) ∧
    ((fn s).1 = none →
      WithContext .deadlineAfterLatch fn cleanup s =
        (some { Err := Error.timedOut, CleanupErr := (cleanup (fn s).2).1 },
         (cleanup (fn s).2).2) ∧
      (WithContext.settled .deadlineAfterLatch fn cleanup s).cleanups = 1) ∧
    (∀ e, (fn s).1 = some e →
      WithContext .deadlineAfterLatch fn cleanup s =
        (some { Err := e, CleanupErr := (cleanup (fn s).2).1 }, (cleanup (fn s).2).2) ∧
      (WithContext.settled .deadlineAfterLatch fn cleanup s).cleanups = 1) ∧
    (WithContext .deadlineThenWork fn cleanup s =
        (some { Err := Error.timedOut, CleanupErr := (cleanup s).1 },
         (fn (cleanup s).2).2) ∧
      (WithContext.settled .deadlineThenWork fn cleanup s).cleanups = 1) ∧
    (∀ sched, (WithContext.atReturn sched fn cleanup s).cleanups ≤ 1 ∧
      (WithContext.settled sched fn cleanup s).cleanups ≤ 1) := by
  have hDF : (WithContext .deadlineFirst fn cleanup s =
        (some { Err := Error.timedOut, CleanupErr := (cleanup s).1 }, (cleanup s).2) ∧
      (WithContext.atReturn .deadlineFirst fn cleanup s).cleanups = 1 ∧
      (WithContext.settled .deadlineFirst fn cleanup s).cleanups = 1 ∧
      (WithContext.settled .deadlineFirst fn cleanup s).timeOutErr =
        (WithContext.atReturn .deadlineFirst fn cleanup s).timeOutErr) := by
    simp only [WithContext, WithContext.settled, WithContext.atReturn, Exec.deadline,
      Exec.worker, Exec.onceDo, Exec.record]
    cases h : (fn (cleanup s).2).1 <;> simp [h]
  have hDW : (WithContext .deadlineAfterWork fn cleanup s =
        (some { Err := Error.timedOut, CleanupErr := (cleanup (fn s).2).1 },
         (cleanup (fn s).2).2) ∧
      (WithContext.atReturn .deadlineAfterWork fn cleanup s).cleanups = 1 ∧
      (WithContext.settled .deadlineAfterWork fn cleanup s).cleanups = 1 ∧
      (WithContext.settled .deadlineAfterWork fn cleanup s).timeOutErr =
        (WithContext.atReturn .deadlineAfterWork fn cleanup s).timeOutErr) := by
    simp only [WithContext, WithContext.settled, WithContext.atReturn, Exec.deadline,
      Exec.onceDo, Exec.record]
    cases h : (fn s).1 <;> simp [h]
  have hDT : (WithContext .deadlineThenWork fn cleanup s =
        (some { Err := Error.timedOut, CleanupErr := (cleanup s).1 },
         (fn (cleanup s).2).2) ∧
      (WithContext.settled .deadlineThenWork fn cleanup s).cleanups = 1) := by
    simp only [WithContext, WithContext.settled, WithContext.atReturn, Exec.deadline,
      Exec.worker, Exec.onceDo, Exec.record]
    cases h : (fn (cleanup s).2).1 <;> simp [h]
  have hW0 : (fn s).1 = none →
      WithContext .workFirst fn cleanup s = (none, (fn s).2) ∧
      (WithContext.settled .workFirst fn cleanup s).cleanups = 0 := by
    intro h
    simp [WithContext, WithContext.settled, WithContext.atReturn, Exec.worker, h]
  have hW1 : ∀ e, (fn s).1 = some e →
      WithContext .workFirst fn cleanup s =
        (some { Err := e, CleanupErr := (cleanup (fn s).2).1 }, (cleanup (fn s).2).2) ∧
      (WithContext.settled .workFirst fn cleanup s).cleanups = 1 := by
    intro e h
    simp [WithContext, WithContext.settled, WithContext.atReturn, Exec.worker, Exec.onceDo,
      Exec.record, h]
  have hL0 : (fn s).1 = none →
      WithContext .deadlineAfterLatch fn cleanup s =
        (some { Err := Error.timedOut, CleanupErr := (cleanup (fn s).2).1 },
         (cleanup (fn s).2).2) ∧
      (WithContext.settled .deadlineAfterLatch fn cleanup s).cleanups = 1 := by
    intro h
    simp [WithContext, WithContext.settled, WithContext.atReturn, Exec.deadline, Exec.worker,
      Exec.onceDo, Exec.record, h]
  have hL1 : ∀ e, (fn s).1 = some e →
      WithContext .deadlineAfterLatch fn cleanup s =
        (some { Err := e, CleanupErr := (cleanup (fn s).2).1 }, (cleanup (fn s).2).2) ∧
      (WithContext.settled .deadlineAfterLatch fn cleanup s).cleanups = 1 := by
    intro e h
    simp [WithContext, WithContext.settled, WithContext.atReturn, Exec.deadline, Exec.worker,
      Exec.onceDo, Exec.record, h]
  refine ⟨hW0, hW1, hDF, hDW, hL0, hL1, hDT, ?_⟩
  intro sched
  cases sched
  · simp only [WithContext.settled]
    cases h : (fn s).1 with
    | none =>
      have := (hW0 h).2
      simp only [WithContext.settled] at this
      omega
    | some e =>
      have := (hW1 e h).2
      simp only [WithContext.settled] at this
      omega
  · exact ⟨by rw [hDF.2.1], by rw [hDF.2.2.1]⟩
  · exact ⟨by rw [hDW.2.1], by rw [hDW.2.2.1]⟩
  · simp only [WithContext.settled]
    cases h : (fn s).1 with
    | none =>
      have := (hL0 h).2
      simp only [WithContext.settled] at this
      omega
    | some e =>
      have := (hL1 e h).2
      simp only [WithContext.settled] at this
      omega
  · have := hDT.2
    simp only [WithContext.settled] at this ⊢
    omega

/-- Witness of `WithContext_outcome_table`: a succeeding and a failing unit
of work under `exampleCleanup`, started on 0. -/
theorem WithContext_outcome_table_witness :
    ((exampleWork 0).1 = none ∧
      WithContext .workFirst exampleWork exampleCleanup 0 = (none, (exampleWork 0).2)) ∧
    ((exampleFailingWork 0).1 = some (Error.ext 3) ∧
      WithContext .workFirst exampleFailingWork exampleCleanup 0 =
        (some { Err := Error.ext 3, CleanupErr := (exampleCleanup (exampleFailingWork 0).2).1 },
         (exampleCleanup (exampleFailingWork 0).2).2)) :=
  ⟨⟨by decide, ((WithContext_outcome_table exampleWork exampleCleanup 0).1 (by decide)).1⟩,
   by decide,
   ((WithContext_outcome_table exampleFailingWork exampleCleanup 0).2.1 (Error.ext 3)
     (by decide)).1⟩

/-! ## Theorems: I/O failures and the close of the connection -/

theorem Socket.Read_closeCalls (s : Socket) (len : Nat) :
    (s.Read len).2.closeCalls = s.closeCalls := by
  unfold Socket.Read
  split
  · rfl
  · split <;> rfl

theorem Socket.Write_closeCalls (s : Socket) (b : List Byte) :
    (s.Write b).2.closeCalls = s.closeCalls := by
  unfold Socket.Write
  split <;> rfl

theorem Connection.Close_closed (c : Connection) (h : c.latchSound) :
    c.Close.2.isClosed ∧ c.Close.2.notifyOnce = true := by
  unfold Connection.Close
  by_cases hl : c.notifyOnce = true
  · simp [hl, h hl]
  · simp [hl, Connection.isClosed, Socket.Close]

theorem Connection.Close_of_latched (c : Connection) (h : c.notifyOnce = true) :
    c.Close = (none, c) := by
  simp [Connection.Close, h]

/-- Every result of `WithContext`: nil with what `fn` left, when the work
is received and `fn` returned nil; otherwise an error recorded under the
latch, with `cleanup` run on the initiator either as it was or as `fn` left
it, and `fn` possibly run after the cleanup. -/
theorem WithContext_cases {σ : Type} (sched : Schedule) (fn cleanup : σ → Option Error × σ)
    (s : σ) :
    ((WithContext sched fn cleanup s).1 = none ∧ (WithContext sched fn cleanup s).2 = (fn s).2 ∧
      (fn s).1 = none ∧ sched = .workFirst) ∨
    ∃ (t : σ) (err : Error),
      (WithContext sched fn cleanup s).1 = some { Err := err, CleanupErr := (cleanup t).1 } ∧
      (t = s ∨ t = (fn s).2) ∧
      ((WithContext sched fn cleanup s).2 = (cleanup t).2 ∨
        (t = s ∧ (WithContext sched fn cleanup s).2 = (fn (cleanup s).2).2)) := by
  cases sched
  · cases hres : (fn s).1 with
    | none =>
      left
      simp [WithContext, WithContext.atReturn, Exec.worker, hres]
    | some err =>
      right
      exact ⟨(fn s).2, err, by
        simp [WithContext, WithContext.atReturn, Exec.worker, hres, Exec.onceDo, Exec.record]⟩
  · right
    exact ⟨s, Error.timedOut, by
      simp [WithContext, WithContext.atReturn, Exec.deadline, Exec.onceDo, Exec.record]⟩
  · right
    exact ⟨(fn s).2, Error.timedOut, by
      simp [WithContext, WithContext.atReturn, Exec.deadline, Exec.onceDo, Exec.record]⟩
  · right
    cases hres : (fn s).1 with
    | none =>
      exact ⟨(fn s).2, Error.timedOut, by
        simp [WithContext, WithContext.atReturn, Exec.deadline, Exec.worker, hres, Exec.onceDo,
          Exec.record]⟩
    | some err =>
      exact ⟨(fn s).2, err, by
        simp [WithContext, WithContext.atReturn, Exec.deadline, Exec.worker, hres, Exec.onceDo,
          Exec.record]⟩
  · right
    refine ⟨s, Error.timedOut, ?_⟩
    cases hres : (fn (cleanup s).2).1 <;>
      simp [WithContext, WithContext.atReturn, Exec.deadline, Exec.worker, hres, Exec.onceDo,
        Exec.record]

theorem Connection.Close_keeps_closed (c : Connection) (h : c.isClosed) : c.Close.2.isClosed := by
  unfold Connection.Close
  split
  · exact h
  · exact ⟨Nat.le_add_left _ _, by simp [Socket.Close]⟩

/-- The connection a call through the executor hands back: the one the
executor left, closed once more when the cleanup reported no error. -/
theorem finishCall_conn (r : Option WithTimeoutError × CallVars) :
    ((finishCall r).1.2 = none ↔ r.1 = none) ∧
    ((finishCall r).2.1 = r.2.c ∨ (finishCall r).2.1 = r.2.c.Close.2) ∧
    (r.1 = none → (finishCall r).2.1 = r.2.c) := by
  unfold finishCall
  cases h1 : r.1 with
  | none => simp
  | some e =>
    cases h2 : e.CleanupErr with
    | none =>
      cases h3 : r.2.c.Close.1 <;> simp [NestedCloseConnErr, h2, h3]
    | some ce => simp [NestedCloseConnErr, h2]

/-- The connection the executor leaves when its result is an error is
closed, for any work that keeps a sound latch sound and a closed connection
closed. -/
theorem WithContext_error_closed (sched : Schedule) (fn : CallVars → Option Error × CallVars)
    (v : CallVars) (hsound : v.c.latchSound)
    (hfn : ∀ w : CallVars, w.c.latchSound → (fn w).2.c.latchSound)
    (hfnc : ∀ w : CallVars, w.c.isClosed → (fn w).2.c.isClosed) :
    (WithContext sched fn closeFn v).1 ≠ none → (WithContext sched fn closeFn v).2.c.isClosed := by
  intro herr
  rcases WithContext_cases sched fn closeFn v with ⟨h, _⟩ | ⟨t, err, _, ht, hr⟩
  · exact absurd h herr
  · have htsound : t.c.latchSound := by
      rcases ht with rfl | rfl
      · exact hsound
      · exact hfn _ hsound
    have hclosed : (closeFn t).2.c.isClosed := (Connection.Close_closed t.c htsound).1
    rcases hr with hr | ⟨rfl, hr⟩
    · rw [hr]; exact hclosed
    · rw [hr]; exact hfnc _ hclosed

/-- After the executor with `Close` as cleanup, an error result leaves the
connection closed, for any work that does not touch the close state. -/
theorem finishCall_error_closed (sched : Schedule) (fn : CallVars → Option Error × CallVars)
    (v : CallVars) (hsound : v.c.latchSound)
    (hfn : ∀ w : CallVars, w.c.latchSound → (fn w).2.c.latchSound)
    (hfnc : ∀ w : CallVars, w.c.isClosed → (fn w).2.c.isClosed) :
    (finishCall (WithContext sched fn closeFn v)).1.2 ≠ none →
    (finishCall (WithContext sched fn closeFn v)).2.1.isClosed := by
  intro herr
  obtain ⟨h1, h2, _⟩ := finishCall_conn (WithContext sched fn closeFn v)
  have hne : (WithContext sched fn closeFn v).1 ≠ none := fun h => herr (h1.mpr h)
  have hclosed := WithContext_error_closed sched fn v hsound hfn hfnc hne
  rcases h2 with h2 | h2
  · rw [h2]; exact hclosed
  · rw [h2]; exact Connection.Close_keeps_closed _ hclosed

theorem Connection.Close_frame (c : Connection) :
    c.Close.2.bufferedByte = c.bufferedByte ∧ c.Close.2.conn.readLog = c.conn.readLog ∧
    c.Close.2.conn.writeLog = c.conn.writeLog := by
  unfold Connection.Close
  split <;> simp [Socket.Close]

/-- What a call through the executor returns when the deadline is received
first: the work's results are not there yet, the error is not nil. -/
theorem finishCall_deadlineFirst (fn : CallVars → Option Error × CallVars) (v : CallVars) :
    (finishCall (WithContext .deadlineFirst fn closeFn v)).1.1 = v.n ∧
    (finishCall (WithContext .deadlineFirst fn closeFn v)).1.2 ≠ none ∧
    (finishCall (WithContext .deadlineFirst fn closeFn v)).2.2 = v.b ∧
    (finishCall (WithContext .deadlineFirst fn closeFn v)).2.1.bufferedByte = v.c.bufferedByte ∧
    (finishCall (WithContext .deadlineFirst fn closeFn v)).2.1.conn.readLog = v.c.conn.readLog ∧
    (finishCall (WithContext .deadlineFirst fn closeFn v)).2.1.conn.writeLog = v.c.conn.writeLog := by
  have hf := Connection.Close_frame v.c
  have hff := Connection.Close_frame v.c.Close.2
  simp only [WithContext, WithContext.atReturn, Exec.deadline, Exec.onceDo, Exec.record,
    closeFn, finishCall]
  cases hce : v.c.Close.1 with
  | none =>
    cases hce2 : v.c.Close.2.Close.1 <;> simp [hf, hff, NestedCloseConnErr, hce2]
  | some ce => simp [hf, NestedCloseConnErr]

theorem readFn_latchSound (offset : Nat) (v : CallVars) (h : v.c.latchSound) :
    (readFn offset v).2.c.latchSound := by
  intro hl
  have := h hl
  simpa [readFn, Connection.isClosed, Socket.Read_closeCalls] using this

theorem writeFn_latchSound (v : CallVars) (h : v.c.latchSound) :
    (writeFn v).2.c.latchSound := by
  intro hl
  have := h hl
  simpa [writeFn, Connection.isClosed, Socket.Write_closeCalls] using this

theorem readFn_keeps_closed (offset : Nat) (v : CallVars) (h : v.c.isClosed) :
    (readFn offset v).2.c.isClosed := by
  simpa [readFn, Connection.isClosed, Socket.Read_closeCalls] using h

theorem writeFn_keeps_closed (v : CallVars) (h : v.c.isClosed) :
    (writeFn v).2.c.isClosed := by
  simpa [writeFn, Connection.isClosed, Socket.Write_closeCalls] using h

theorem NewConnection_latchSound (conn : Socket) (config : ConnectionConfig) :
    (NewConnection conn config).latchSound := by
  intro h
  simp [NewConnection] at h

theorem Connection.latchSound_of_isClosed (c : Connection) (h : c.isClosed) : c.latchSound :=
  fun _ => h

theorem finishCall_latchSound (sched : Schedule) (fn : CallVars → Option Error × CallVars)
    (v : CallVars) (hsound : v.c.latchSound)
    (hfn : ∀ w : CallVars, w.c.latchSound → (fn w).2.c.latchSound)
    (hfnc : ∀ w : CallVars, w.c.isClosed → (fn w).2.c.isClosed) :
    (finishCall (WithContext sched fn closeFn v)).2.1.latchSound := by
  by_cases herr : (finishCall (WithContext sched fn closeFn v)).1.2 = none
  · obtain ⟨h1, _, h3⟩ := finishCall_conn (WithContext sched fn closeFn v)
    have hnone := h1.mp herr
    rw [h3 hnone]
    rcases WithContext_cases sched fn closeFn v with ⟨_, h, _, _⟩ | ⟨t, err, h, _, _⟩
    · rw [h]; exact hfn _ hsound
    · rw [hnone] at h; cases h
  · exact Connection.latchSound_of_isClosed _
      (finishCall_error_closed sched fn v hsound hfn hfnc herr)

/-- Every method keeps the latch sound. -/
theorem latchSound_kept (sched : Schedule) (c : Connection) (b : List Byte)
    (hsound : c.latchSound) :
    c.Close.2.latchSound ∧ c.WaitForPacket.2.latchSound ∧
    (c.ReadContext sched b).2.1.latchSound ∧ (c.WriteContext sched b).2.latchSound := by
  refine ⟨Connection.latchSound_of_isClosed _ (Connection.Close_closed c hsound).1, ?_, ?_, ?_⟩
  · unfold Connection.WaitForPacket
    cases hbuf : c.bufferedByte with
    | some x => exact hsound
    | none =>
      have hkeep : ∀ bb : Option Byte,
          ({ c with conn := (c.conn.Read 1).2, bufferedByte := bb } : Connection).latchSound := by
        intro bb hl
        have := hsound hl
        simpa [Connection.isClosed, Socket.Read_closeCalls] using this
      have hkeep' : ({ c with conn := (c.conn.Read 1).2 } : Connection).latchSound := by
        intro hl
        have := hsound hl
        simpa [Connection.isClosed, Socket.Read_closeCalls] using this
      simp only
      split
      · exact hkeep'
      · split
        · exact hkeep'
        · exact hkeep _
  · unfold Connection.ReadContext
    by_cases hb : b.length = 0
    · simpa [hb] using hsound
    · simp only [hb, if_false]
      cases hbuf : c.bufferedByte with
      | none =>
        exact finishCall_latchSound sched (readFn 0) _ hsound (readFn_latchSound 0)
          (readFn_keeps_closed 0)
      | some x =>
        have hs : ({ c with bufferedByte := none } : Connection).latchSound := hsound
        by_cases h1 : b.length = 1
        · simpa [h1] using hs
        · simp only [h1, if_false]
          exact finishCall_latchSound sched (readFn 1) _ hs (readFn_latchSound 1)
            (readFn_keeps_closed 1)
  · unfold Connection.WriteContext
    exact finishCall_latchSound sched writeFn _ hsound writeFn_latchSound writeFn_keeps_closed

/-- C5, counterexample. `WaitForPacket` on a connection with no buffered
byte whose socket read fails returns the socket's error and leaves the
connection open: no notification emitted, `Close` of the socket not called. -/
theorem WaitForPacket_error_leaves_open :
    brokenConn.bufferedByte = none ∧
    (brokenConn.conn.Read 1).1 = ([], some (Error.ext 9)) ∧
    brokenConn.WaitForPacket.1 = some (Error.ext 9) ∧
    brokenConn.WaitForPacket.2.notifyOnce = false ∧
    brokenConn.WaitForPacket.2.closeNotifier = 0 ∧
    brokenConn.WaitForPacket.2.conn.closeCalls = 0 := by
  decide

/-- C5, amended. Whenever `Read`, `ReadContext` (on a non-empty buffer),
`Write` or `WriteContext` returns an error, which is then caused by a socket
failure or an expired deadline, the connection is closed when the call
returns: the close notification has been emitted and `Close` of the socket
has been called.  `WaitForPacket` instead hands the socket's error back
and leaves the close state of the connection as it was. -/
theorem io_error_closes_connection (sched : Schedule) (c : Connection) (b : List Byte)
    (hsound : c.latchSound) :
    (b.length ≠ 0 → (c.ReadContext sched b).1.2 ≠ none → (c.ReadContext sched b).2.1.isClosed) ∧
    (b.length ≠ 0 → (c.Read sched b).1.2 ≠ none → (c.Read sched b).2.1.isClosed) ∧
    ((c.WriteContext sched b).1.2 ≠ none → (c.WriteContext sched b).2.isClosed) ∧
    ((c.Write sched b).1.2 ≠ none → (c.Write sched b).2.isClosed) ∧
    (∀ e, c.bufferedByte = none → (c.conn.Read 1).1.2 = some e →
      c.WaitForPacket.1 = some e ∧
      c.WaitForPacket.2.notifyOnce = c.notifyOnce ∧
      c.WaitForPacket.2.closeNotifier = c.closeNotifier ∧
      c.WaitForPacket.2.conn.closeCalls = c.conn.closeCalls) := by
  have hread : b.length ≠ 0 → (c.ReadContext sched b).1.2 ≠ none →
      (c.ReadContext sched b).2.1.isClosed := by
    intro hb
    unfold Connection.ReadContext
    simp only [hb, if_false]
    cases hbuf : c.bufferedByte with
    | none =>
      exact finishCall_error_closed sched (readFn 0) _ hsound (readFn_latchSound 0)
        (readFn_keeps_closed 0)
    | some x =>
      have hs : ({ c with bufferedByte := none } : Connection).latchSound := hsound
      by_cases h1 : b.length = 1
      · simp [h1]
      · simp only [h1, if_false]
        exact finishCall_error_closed sched (readFn 1) _ hs (readFn_latchSound 1)
          (readFn_keeps_closed 1)
  have hwrite : (c.WriteContext sched b).1.2 ≠ none → (c.WriteContext sched b).2.isClosed := by
    unfold Connection.WriteContext
    exact finishCall_error_closed sched writeFn _ hsound writeFn_latchSound writeFn_keeps_closed
  refine ⟨hread, hread, hwrite, hwrite, ?_⟩
  intro e hbuf herr
  simp [Connection.WaitForPacket, hbuf, herr, Socket.Read_closeCalls]

/-- Witness of `io_error_closes_connection`: a read that misses its
deadline on `exampleConn`, and a failing `WaitForPacket` on `brokenConn`. -/
theorem io_error_closes_connection_witness :
    (exampleConn.latchSound ∧ [0, 0].length ≠ 0 ∧
      (exampleConn.Read .deadlineFirst [0, 0]).1.2 ≠ none ∧
      (exampleConn.Read .deadlineFirst [0, 0]).2.1.isClosed) ∧
    (brokenConn.latchSound ∧ brokenConn.bufferedByte = none ∧
      (brokenConn.conn.Read 1).1.2 = some (Error.ext 9) ∧
      brokenConn.WaitForPacket.1 = some (Error.ext 9)) :=
  ⟨⟨by intro h; exact absurd h (by decide), by decide, by decide,
    (io_error_closes_connection .deadlineFirst exampleConn [0, 0]
      (by intro h; exact absurd h (by decide))).2.1 (by decide) (by decide)⟩,
   by intro h; exact absurd h (by decide), by decide, by decide,
   ((io_error_closes_connection .workFirst brokenConn []
      (by intro h; exact absurd h (by decide))).2.2.2.2 (Error.ext 9) (by decide)
      (by decide)).1⟩

/-! ## Theorems: the peeked byte -/

theorem storeAt_one_head (b : List Byte) (x : Byte) (data : List Byte) (hb : 1 ≤ b.length) :
    (storeAt (b.set 0 x) 1 data)[0]? = some x := by
  cases b with
  | nil => simp at hb
  | cons a t => simp [storeAt]

theorem rangeFrom_glue (a b c : Nat) (hab : a ≤ b) (hbc : b ≤ c) :
    List.range' a (b - a) ++ List.range' b (c - b) = List.range' a (c - a) := by
  obtain ⟨m, rfl⟩ := Nat.exists_eq_add_of_le hab
  obtain ⟨n, rfl⟩ := Nat.exists_eq_add_of_le hbc
  have e1 : a + m - a = m := by omega
  have e2 : a + m + n - (a + m) = n := by omega
  have e3 : a + m + n - a = n + m := by omega
  rw [e1, e2, e3, List.range'_append_1]

theorem Handler.run_neverNext (f : ChainState → Outcome (Option Error) × ChainState)
    (h : Handler) (hn : h.neverNext) (st : ChainState) :
    (Handler.run f h st).2.1.handlerIdx = st.1.handlerIdx ∧ (Handler.run f h st).2.2 = st.2 := by
  induction h generalizing st with
  | ret err => exact ⟨rfl, rfl⟩
  | act g k ih =>
    simp only [Handler.run]
    exact ih st.1 (hn st.1) _
  | next k _ => exact absurd hn (by simp [Handler.neverNext])

/-- Inside a handler run the cursor only moves through `callNext`: if every
`callNext` from a cursor at or past the start moves the cursor forward within
the chain and logs the indices it passed, so does the handler run. -/
theorem Handler.run_inv (len : Nat) (f : ChainState → Outcome (Option Error) × ChainState)
    (h : Handler) (st : ChainState) (hst : st.1.handlerIdx ≤ len)
    (hf : ∀ st' : ChainState, st.1.handlerIdx ≤ st'.1.handlerIdx → st'.1.handlerIdx ≤ len →
      st'.1.handlerIdx ≤ (f st').2.1.handlerIdx ∧ (f st').2.1.handlerIdx ≤ len ∧
      (f st').2.2 = st'.2 ++
        List.range' st'.1.handlerIdx ((f st').2.1.handlerIdx - st'.1.handlerIdx)) :
    st.1.handlerIdx ≤ (Handler.run f h st).2.1.handlerIdx ∧
    (Handler.run f h st).2.1.handlerIdx ≤ len ∧
    (Handler.run f h st).2.2 = st.2 ++
      List.range' st.1.handlerIdx ((Handler.run f h st).2.1.handlerIdx - st.1.handlerIdx) := by
  induction h generalizing st with
  | ret err => simp [Handler.run, hst]
  | act g k ih =>
    simp only [Handler.run]
    exact ih st.1 ({ g st.1 with handlerIdx := st.1.handlerIdx }, st.2) hst hf
  | next k ih =>
    obtain ⟨h1, h2, h3⟩ := hf st (Nat.le_refl _) hst
    simp only [Handler.run]
    cases hres : (f st).1 with
    | panicked => exact ⟨h1, h2, h3⟩
    | returned err =>
      simp only
      obtain ⟨g1, g2, g3⟩ := ih err (f st).2 h2
        (fun st' hle hlen => hf st' (Nat.le_trans h1 hle) hlen)
      refine ⟨Nat.le_trans h1 g1, g2, ?_⟩
      rw [g3, h3, List.append_assoc]
      congr 1
      exact rangeFrom_glue _ _ _ h1 g1

theorem Handler.run_congr (len : Nat) (f g : ChainState → Outcome (Option Error) × ChainState)
    (h : Handler) (st : ChainState) (hst : st.1.handlerIdx ≤ len)
    (hfg : ∀ st' : ChainState, st.1.handlerIdx ≤ st'.1.handlerIdx → st'.1.handlerIdx ≤ len →
      f st' = g st' ∧ st'.1.handlerIdx ≤ (f st').2.1.handlerIdx ∧
      (f st').2.1.handlerIdx ≤ len) :
    Handler.run f h st = Handler.run g h st := by
  induction h generalizing st with
  | ret err => rfl
  | act a k ih =>
    simp only [Handler.run]
    exact ih st.1 ({ a st.1 with handlerIdx := st.1.handlerIdx }, st.2) hst hfg
  | next k ih =>
    obtain ⟨h1, h2, h3⟩ := hfg st (Nat.le_refl _) hst
    simp only [Handler.run]
    rw [← h1]
    cases hres : (f st).1 with
    | panicked => rfl
    | returned err =>
      simp only
      exact ih err (f st).2 h3 (fun st' hle hlen => hfg st' (Nat.le_trans h2 hle) hlen)

theorem NextWithin_spec (hs : List Handler) (rem : Nat) :
    ∀ st : ChainState, st.1.handlerIdx ≤ hs.length → hs.length - st.1.handlerIdx ≤ rem →
      NextWithin hs rem st = Next hs st ∧
      st.1.handlerIdx ≤ (NextWithin hs rem st).2.1.handlerIdx ∧
      (NextWithin hs rem st).2.1.handlerIdx ≤ hs.length ∧
      (NextWithin hs rem st).2.2 = st.2 ++
        List.range' st.1.handlerIdx
          ((NextWithin hs rem st).2.1.handlerIdx - st.1.handlerIdx) := by
  induction rem using Nat.strong_induction_on with
  | _ rem ih =>
    intro st hst hrem
    by_cases hend : st.1.handlerIdx = hs.length
    · have h0 : NextWithin hs rem st = (.returned none, st) := by
        cases rem <;> simp [NextWithin, hend]
      have h1 : Next hs st = (.returned none, st) := by
        simp [Next, hend, NextWithin]
      rw [h0, h1]
      simp [hst]
    · have hlt : st.1.handlerIdx < hs.length := by omega
      obtain ⟨r, rfl⟩ : ∃ r, rem = r + 1 := ⟨rem - 1, by omega⟩
      obtain ⟨k, hk⟩ : ∃ k, hs.length - st.1.handlerIdx = k + 1 :=
        ⟨hs.length - st.1.handlerIdx - 1, by omega⟩
      have hget : hs[st.1.handlerIdx]? = some hs[st.1.handlerIdx] :=
        List.getElem?_eq_getElem hlt
      have hr := ih r (Nat.lt_succ_self r)
      have hkr := ih k (by omega)
      have hinv := Handler.run_inv hs.length (NextWithin hs r) hs[st.1.handlerIdx]
        ({ st.1 with handlerIdx := st.1.handlerIdx + 1 }, st.2 ++ [st.1.handlerIdx]) hlt
        (fun st' hle hlen => (hr st' hlen (by simp at hle; omega)).2)
      have hcongr := Handler.run_congr hs.length (NextWithin hs r) (NextWithin hs k)
        hs[st.1.handlerIdx]
        ({ st.1 with handlerIdx := st.1.handlerIdx + 1 }, st.2 ++ [st.1.handlerIdx]) hlt
        (fun st' hle hlen => by
          have a := hr st' hlen (by simp at hle; omega)
          have b := hkr st' hlen (by simp at hle; omega)
          exact ⟨a.1.trans b.1.symm, a.2.1, a.2.2.1⟩)
      have hstep : NextWithin hs (r + 1) st =
          Handler.run (NextWithin hs r) hs[st.1.handlerIdx]
            ({ st.1 with handlerIdx := st.1.handlerIdx + 1 }, st.2 ++ [st.1.handlerIdx]) := by
        simp [NextWithin, hend, hget]
      have hnext : Next hs st =
          Handler.run (NextWithin hs k) hs[st.1.handlerIdx]
            ({ st.1 with handlerIdx := st.1.handlerIdx + 1 }, st.2 ++ [st.1.handlerIdx]) := by
        simp [Next, hk, NextWithin, hend, hget]
      rw [hstep]
      refine ⟨by rw [hnext, hcongr], ?_, hinv.2.1, ?_⟩
      · have h1 : st.1.handlerIdx + 1 ≤ _ := hinv.1
        omega
      · rw [hinv.2.2]
        simp only [List.append_assoc]
        congr 1
        have h1 : st.1.handlerIdx + 1 ≤ _ := hinv.1
        generalize (Handler.run (NextWithin hs r) hs[st.1.handlerIdx]
          ({ st.1 with handlerIdx := st.1.handlerIdx + 1 },
            st.2 ++ [st.1.handlerIdx])).2.1.handlerIdx = m at h1 ⊢
        obtain ⟨d, rfl⟩ : ∃ d, m = st.1.handlerIdx + 1 + d := ⟨m - (st.1.handlerIdx + 1), by omega⟩
        have e1 : st.1.handlerIdx + 1 + d - (st.1.handlerIdx + 1) = d := by omega
        have e2 : st.1.handlerIdx + 1 + d - st.1.handlerIdx = d + 1 := by omega
        rw [e1, e2, List.range'_succ]
        rfl

theorem Next_inv (hs : List Handler) (st : ChainState) (hst : st.1.handlerIdx ≤ hs.length) :
    st.1.handlerIdx ≤ (Next hs st).2.1.handlerIdx ∧
    (Next hs st).2.1.handlerIdx ≤ hs.length ∧
    (Next hs st).2.2 = st.2 ++
      List.range' st.1.handlerIdx ((Next hs st).2.1.handlerIdx - st.1.handlerIdx) :=
  (NextWithin_spec hs (hs.length - st.1.handlerIdx) st hst (Nat.le_refl _)).2

/-- The recursive equation of `ServerContext.Next`: below the end of the
chain it is the run of the handler under the cursor, started with the
cursor advanced, in which `ctx.Next` is `Next` again. -/
theorem Next_step (hs : List Handler) (st : ChainState) (h : Handler)
    (hget : hs[st.1.handlerIdx]? = some h) :
    Next hs st =
      Handler.run (Next hs) h
        ({ st.1 with handlerIdx := st.1.handlerIdx + 1 }, st.2 ++ [st.1.handlerIdx]) := by
  have hlt : st.1.handlerIdx < hs.length := by
    rcases List.getElem?_eq_some_iff.mp hget with ⟨hh, _⟩
    exact hh
  have hend : st.1.handlerIdx ≠ hs.length := by omega
  obtain ⟨k, hk⟩ : ∃ k, hs.length - st.1.handlerIdx = k + 1 :=
    ⟨hs.length - st.1.handlerIdx - 1, by omega⟩
  have hnext : Next hs st =
      Handler.run (NextWithin hs k) h
        ({ st.1 with handlerIdx := st.1.handlerIdx + 1 }, st.2 ++ [st.1.handlerIdx]) := by
    simp [Next, hk, NextWithin, hend, hget]
  rw [hnext]
  exact Handler.run_congr hs.length (NextWithin hs k) (Next hs) h _ hlt
    (fun st' hle hlen => by
      have hle' : st.1.handlerIdx + 1 ≤ st'.1.handlerIdx := hle
      have a := NextWithin_spec hs k st' hlen (by omega)
      exact ⟨a.1, a.2.1, a.2.2.1⟩)

theorem Handler.run_nextAtMostOnce (f : ChainState → Outcome (Option Error) × ChainState)
    (h : Handler) (ho : h.nextAtMostOnce) (st : ChainState) :
    (Handler.run f h st).2.1.handlerIdx = st.1.handlerIdx ∨
    ∃ ctx' : ServerContext, ctx'.handlerIdx = st.1.handlerIdx ∧
      (Handler.run f h st).2.1.handlerIdx = (f (ctx', st.2)).2.1.handlerIdx := by
  induction h generalizing st with
  | ret err => exact Or.inl rfl
  | act g k ih =>
    simp only [Handler.run]
    exact ih st.1 (ho st.1) ({ g st.1 with handlerIdx := st.1.handlerIdx }, st.2)
  | next k _ =>
    right
    refine ⟨st.1, rfl, ?_⟩
    simp only [Handler.run]
    cases hres : (f st).1 with
    | panicked => rfl
    | returned err =>
      simp only
      exact (Handler.run_neverNext f (k err) (ho err) (f st).2).1

/-- When no handler calls `Next` more than once, a `Next` from a cursor at
or before a handler that never calls `Next` does not move the cursor beyond
that handler. -/
theorem Next_stops (hs : List Handler) (hall : ∀ h ∈ hs, h.nextAtMostOnce) (j : Nat)
    (hj : Handler) (hget : hs[j]? = some hj) (hn : hj.neverNext) :
    ∀ (n : Nat) (st : ChainState), st.1.handlerIdx ≤ j → j - st.1.handlerIdx = n →
      (Next hs st).2.1.handlerIdx ≤ j + 1 := by
  have hjlt : j < hs.length := by
    rcases List.getElem?_eq_some_iff.mp hget with ⟨hh, _⟩
    exact hh
  intro n
  induction n with
  | zero =>
    intro st hle hn0
    have hij : st.1.handlerIdx = j := by omega
    have hg : hs[st.1.handlerIdx]? = some hj := by rw [hij]; exact hget
    rw [Next_step hs st hj hg]
    have := (Handler.run_neverNext (Next hs) hj hn
      ({ st.1 with handlerIdx := st.1.handlerIdx + 1 }, st.2 ++ [st.1.handlerIdx])).1
    rw [this]
    simp [hij]
  | succ n ih =>
    intro st hle hn1
    have hlt : st.1.handlerIdx < hs.length := by omega
    have hg : hs[st.1.handlerIdx]? = some hs[st.1.handlerIdx] := List.getElem?_eq_getElem hlt
    rw [Next_step hs st _ hg]
    rcases Handler.run_nextAtMostOnce (Next hs) hs[st.1.handlerIdx]
      (hall _ (List.getElem_mem hlt))
      ({ st.1 with handlerIdx := st.1.handlerIdx + 1 }, st.2 ++ [st.1.handlerIdx]) with h1 | h1
    · rw [h1]
      simp
      omega
    · obtain ⟨ctx', hc, hrun⟩ := h1
      rw [hrun]
      have hc' : ctx'.handlerIdx = st.1.handlerIdx + 1 := hc
      exact ih (ctx', st.2 ++ [st.1.handlerIdx]) (by simp [hc']; omega) (by simp [hc']; omega)

theorem Handler.atFirstNext_idx (h : Handler) (ctx : ServerContext) :
    (h.atFirstNext ctx).handlerIdx = ctx.handlerIdx := by
  induction h generalizing ctx with
  | ret err => rfl
  | act g k ih =>
    simp only [Handler.atFirstNext]
    rw [ih]
  | next k _ => rfl

/-- A handler that does not call `Next` in the context it starts in runs
the same whatever the chain behind it, and leaves the cursor and the log of
invoked handlers as they were. -/
theorem Handler.run_noReach (f g : ChainState → Outcome (Option Error) × ChainState)
    (h : Handler) (ctx : ServerContext) (t : List Nat) (hn : h.reachesNext ctx = false) :
    Handler.run f h (ctx, t) = Handler.run g h (ctx, t) ∧
    (Handler.run f h (ctx, t)).2 = (h.atFirstNext ctx, t) := by
  induction h generalizing ctx with
  | ret err => exact ⟨rfl, rfl⟩
  | act a k ih =>
    simp only [Handler.run, Handler.atFirstNext]
    exact ih ctx _ (by simpa [Handler.reachesNext] using hn)
  | next k _ => simp [Handler.reachesNext] at hn

/-- A handler that calls `Next`, and at most once, leaves the cursor where
that call left it. -/
theorem Handler.run_reach (f : ChainState → Outcome (Option Error) × ChainState)
    (h : Handler) (ho : h.nextAtMostOnce) (ctx : ServerContext) (t : List Nat)
    (hr : h.reachesNext ctx = true) :
    (Handler.run f h (ctx, t)).2.1.handlerIdx = (f (h.atFirstNext ctx, t)).2.1.handlerIdx := by
  induction h generalizing ctx with
  | ret err => simp [Handler.reachesNext] at hr
  | act a k ih =>
    simp only [Handler.run, Handler.atFirstNext]
    exact ih ctx (ho ctx) _ (by simpa [Handler.reachesNext] using hr)
  | next k _ =>
    simp only [Handler.run, Handler.atFirstNext]
    cases hres : (f (ctx, t)).1 with
    | panicked => rfl
    | returned err =>
      simp only
      exact (Handler.run_neverNext f (k err) (ho err) (f (ctx, t)).2).1

theorem startContext_idx (hs : List Handler) (ctx : ServerContext) (j : Nat) :
    (startContext hs ctx j).handlerIdx = j + 1 := by
  cases j with
  | zero => rfl
  | succ j =>
    simp only [startContext]
    split <;> rfl

/-- Through handlers that each call `Next`, a `Next` from the cursor `i`
ends where the `Next` from the cursor `i + d` ends that the `d`-th of them
makes. -/
theorem Next_through_callers (hs : List Handler) (ctx0 : ServerContext)
    (hall : ∀ h ∈ hs, h.nextAtMostOnce) :
    ∀ (d i : Nat),
      (∀ (m : Nat) (h : Handler), i ≤ m → m < i + d → hs[m]? = some h →
        h.reachesNext (startContext hs ctx0 m) = true) →
      i + d ≤ hs.length →
      ∀ (c : ServerContext) (t : List Nat), c.handlerIdx = i →
        { c with handlerIdx := i + 1 } = startContext hs ctx0 i →
        ∃ (c' : ServerContext) (t' : List Nat), c'.handlerIdx = i + d ∧
          { c' with handlerIdx := i + d + 1 } = startContext hs ctx0 (i + d) ∧
          (Next hs (c, t)).2.1.handlerIdx = (Next hs (c', t')).2.1.handlerIdx := by
  intro d
  induction d with
  | zero =>
    intro i _ _ c t hc hstart
    exact ⟨c, t, hc, hstart, rfl⟩
  | succ d ih =>
    intro i hcall hlen c t hc hstart
    have hlt : i < hs.length := by omega
    have hget : hs[i]? = some hs[i] := List.getElem?_eq_getElem hlt
    have hreach := hcall i hs[i] (Nat.le_refl _) (by omega) hget
    have hstep := Next_step hs (c, t) hs[i] (by simp only [hc]; exact hget)
    simp only [hc] at hstep
    rw [hstart] at hstep
    have hrun := Handler.run_reach (Next hs) hs[i] (hall _ (List.getElem_mem hlt))
      (startContext hs ctx0 i) (t ++ [i]) hreach
    have hidx : (hs[i].atFirstNext (startContext hs ctx0 i)).handlerIdx = i + 1 := by
      rw [Handler.atFirstNext_idx, startContext_idx]
    have hnextStart : { hs[i].atFirstNext (startContext hs ctx0 i) with handlerIdx := i + 1 + 1 }
        = startContext hs ctx0 (i + 1) := by
      simp only [startContext, hget]
    obtain ⟨c', t', h1, h2, h3⟩ := ih (i + 1)
      (fun m h hm1 hm2 hm => hcall m h (by omega) (by omega) hm) (by omega)
      (hs[i].atFirstNext (startContext hs ctx0 i)) (t ++ [i]) hidx hnextStart
    refine ⟨c', t', by omega, ?_, ?_⟩
    · have e : i + (d + 1) = i + 1 + d := by omega
      rw [e]
      exact h2
    · rw [hstep, hrun, h3]

/-- When no handler calls `Next` more than once, the iteration stops at the
first handler that does not call `Next`: if every handler before `j` calls
`Next` in the context it starts in and handler `j` does not, the cursor ends
at `j + 1`. -/
theorem Next_stops_at_first (hs : List Handler) (ctx : ServerContext)
    (hall : ∀ h ∈ hs, h.nextAtMostOnce) (j : Nat) (h : Handler) (hget : hs[j]? = some h)
    (hbefore : ∀ (i : Nat) (hi : Handler), i < j → hs[i]? = some hi →
      hi.reachesNext (startContext hs ctx i) = true)
    (hstop : h.reachesNext (startContext hs ctx j) = false) :
    (Next hs ({ ctx with handlerIdx := 0 }, [])).2.1.handlerIdx = j + 1 := by
  have hjlt : j < hs.length := by
    rcases List.getElem?_eq_some_iff.mp hget with ⟨hh, _⟩
    exact hh
  obtain ⟨c', t', h1, h2, h3⟩ := Next_through_callers hs ctx hall j 0
    (fun m hm _ hm2 hmget => hbefore m hm (by omega) hmget) (by omega)
    { ctx with handlerIdx := 0 } [] rfl rfl
  simp only [Nat.zero_add] at h1 h2
  rw [h3]
  have hstep := Next_step hs (c', t') h (by simpa [h1] using hget)
  simp only [h1] at hstep
  rw [h2] at hstep
  rw [hstep, (Handler.run_noReach (Next hs) (Next hs) h _ _ hstop).2]
  simp only
  rw [Handler.atFirstNext_idx, startContext_idx]

/-- When every handler calls `Next`, and none more than once, the iteration
runs through the whole chain. -/
theorem Next_runs_whole_chain (hs : List Handler) (ctx : ServerContext)
    (hall : ∀ h ∈ hs, h.nextAtMostOnce)
    (hcall : ∀ (i : Nat) (hi : Handler), hs[i]? = some hi →
      hi.reachesNext (startContext hs ctx i) = true) :
    (Next hs ({ ctx with handlerIdx := 0 }, [])).2.1.handlerIdx = hs.length := by
  obtain ⟨c', t', h1, _, h3⟩ := Next_through_callers hs ctx hall hs.length 0
    (fun m hm _ _ hmget => hcall m hm hmget) (by omega)
    { ctx with handlerIdx := 0 } [] rfl rfl
  simp only [Nat.zero_add] at h1
  rw [h3]
  simp [Next, h1, NextWithin]

/-- The run of a handler that calls `Next`, split at its first call. -/
theorem Handler.run_at_first_next (f : ChainState → Outcome (Option Error) × ChainState)
    (h : Handler) (ctx : ServerContext) (t : List Nat) (hr : h.reachesNext ctx = true) :
    Handler.run f h (ctx, t) =
      match (f (h.atFirstNext ctx, t)).1 with
      | .panicked => (.panicked, (f (h.atFirstNext ctx, t)).2)
      | .returned err =>
        Handler.run f (h.afterFirstNext ctx err) (f (h.atFirstNext ctx, t)).2 := by
  induction h generalizing ctx with
  | ret err => simp [Handler.reachesNext] at hr
  | act a k ih =>
    simp only [Handler.run, Handler.atFirstNext, Handler.afterFirstNext]
    exact ih ctx _ (by simpa [Handler.reachesNext] using hr)
  | next k _ =>
    simp only [Handler.run, Handler.atFirstNext, Handler.afterFirstNext]

theorem Handler.neverNext_noReach (h : Handler) (hn : h.neverNext) (ctx : ServerContext) :
    h.reachesNext ctx = false := by
  induction h generalizing ctx with
  | ret err => rfl
  | act a k ih =>
    simp only [Handler.reachesNext]
    exact ih ctx (hn ctx) _
  | next k _ => exact absurd hn (by simp [Handler.neverNext])

theorem Handler.afterFirstNext_neverNext (h : Handler) (ho : h.nextAtMostOnce)
    (ctx : ServerContext) (hr : h.reachesNext ctx = true) (err : Option Error) :
    (h.afterFirstNext ctx err).neverNext := by
  induction h generalizing ctx with
  | ret e => simp [Handler.reachesNext] at hr
  | act a k ih =>
    simp only [Handler.afterFirstNext]
    exact ih ctx (ho ctx) _ (by simpa [Handler.reachesNext] using hr)
  | next k _ => exact ho err

/-- A handler on no path of which `Next` is called twice, and which calls
`Next` in the context it starts in, calls `Next` exactly once in the run. -/
theorem callsNextOnce_of_static (hs : List Handler) (ctx : ServerContext) (i : Nat)
    (h : Handler) (ho : h.nextAtMostOnce)
    (hr : h.reachesNext (startContext hs ctx i) = true) : callsNextOnce hs ctx i h :=
  ⟨hr, fun err _ =>
    Handler.neverNext_noReach _ (Handler.afterFirstNext_neverNext h ho _ hr err) _⟩

/-- Through handlers that each call `Next` exactly once in the run, a
`Next` from the cursor `i` ends where the `Next` from the cursor `i + d`
ends that the `d`-th of them makes. -/
theorem Next_through_single_callers (hs : List Handler) (ctx0 : ServerContext) :
    ∀ (d i : Nat),
      (∀ (m : Nat) (h : Handler), i ≤ m → m < i + d → hs[m]? = some h →
        callsNextOnce hs ctx0 m h) →
      i + d ≤ hs.length →
      ∀ (c : ServerContext), c.handlerIdx = i →
        { c with handlerIdx := i + 1 } = startContext hs ctx0 i →
        ∃ (c' : ServerContext), c'.handlerIdx = i + d ∧
          { c' with handlerIdx := i + d + 1 } = startContext hs ctx0 (i + d) ∧
          (Next hs (c, List.range i)).2.1.handlerIdx =
            (Next hs (c', List.range (i + d))).2.1.handlerIdx := by
  intro d
  induction d with
  | zero =>
    intro i _ _ c hc hstart
    exact ⟨c, hc, hstart, rfl⟩
  | succ d ih =>
    intro i hcall hlen c hc hstart
    have hlt : i < hs.length := by omega
    have hget : hs[i]? = some hs[i] := List.getElem?_eq_getElem hlt
    obtain ⟨hreach, honce⟩ := hcall i hs[i] (Nat.le_refl _) (by omega) hget
    have hstep := Next_step hs (c, List.range i) hs[i] (by simp only [hc]; exact hget)
    simp only [hc] at hstep
    rw [hstart, ← List.range_succ] at hstep
    have hsplit := Handler.run_at_first_next (Next hs) hs[i] (startContext hs ctx0 i)
      (List.range (i + 1)) hreach
    have hidx : (hs[i].atFirstNext (startContext hs ctx0 i)).handlerIdx = i + 1 := by
      rw [Handler.atFirstNext_idx, startContext_idx]
    have hnextStart : { hs[i].atFirstNext (startContext hs ctx0 i) with handlerIdx := i + 1 + 1 }
        = startContext hs ctx0 (i + 1) := by
      simp only [startContext, hget]
    have hcursor : (Next hs (c, List.range i)).2.1.handlerIdx =
        (Next hs (hs[i].atFirstNext (startContext hs ctx0 i),
          List.range (i + 1))).2.1.handlerIdx := by
      rw [hstep, hsplit]
      cases hres : (Next hs (hs[i].atFirstNext (startContext hs ctx0 i),
          List.range (i + 1))).1 with
      | panicked => rfl
      | returned err =>
        simp only
        have hno := honce err hres
        have := (Handler.run_noReach (Next hs) (Next hs)
          (hs[i].afterFirstNext (startContext hs ctx0 i) err)
          (Next hs (hs[i].atFirstNext (startContext hs ctx0 i), List.range (i + 1))).2.1
          (Next hs (hs[i].atFirstNext (startContext hs ctx0 i), List.range (i + 1))).2.2
          hno).2
        rw [this]
        simp only
        rw [Handler.atFirstNext_idx]
    obtain ⟨c', h1, h2, h3⟩ := ih (i + 1)
      (fun m h hm1 hm2 hm => hcall m h (by omega) (by omega) hm) (by omega)
      (hs[i].atFirstNext (startContext hs ctx0 i)) hidx hnextStart
    have e : i + (d + 1) = i + 1 + d := by omega
    refine ⟨c', by omega, ?_, ?_⟩
    · rw [e]
      exact h2
    · rw [hcursor, h3, e]

/-- The iteration stops at the first handler that does not call `Next`, when
each handler before it calls `Next` exactly once in the run. -/
theorem Next_stops_at_first_in_run (hs : List Handler) (ctx : ServerContext) (j : Nat)
    (h : Handler) (hget : hs[j]? = some h)
    (hbefore : ∀ (i : Nat) (hi : Handler), i < j → hs[i]? = some hi →
      callsNextOnce hs ctx i hi)
    (hstop : h.reachesNext (startContext hs ctx j) = false) :
    (Next hs ({ ctx with handlerIdx := 0 }, [])).2.1.handlerIdx = j + 1 := by
  have hjlt : j < hs.length := by
    rcases List.getElem?_eq_some_iff.mp hget with ⟨hh, _⟩
    exact hh
  obtain ⟨c', h1, h2, h3⟩ := Next_through_single_callers hs ctx j 0
    (fun m hm _ hm2 hmget => hbefore m hm (by omega) hmget) (by omega)
    { ctx with handlerIdx := 0 } rfl rfl
  simp only [Nat.zero_add] at h1 h2 h3
  have h0 : (List.range 0 : List Nat) = [] := rfl
  rw [h0] at h3
  rw [h3]
  have hstep := Next_step hs (c', List.range j) h (by simpa [h1] using hget)
  simp only [h1] at hstep
  rw [h2] at hstep
  rw [hstep, (Handler.run_noReach (Next hs) (Next hs) h _ _ hstop).2]
  simp only
  rw [Handler.atFirstNext_idx, startContext_idx]

/-- C9, counterexample. With the chain `[callsNextTwice, returnsNil,
returnsNil]` one iteration invokes all three handlers: the third one runs
although the second, which ran before it, never calls `Next`. -/
theorem handler_runs_after_one_that_never_calls_Next :
    returnsNil.neverNext ∧
    (Next [callsNextTwice, returnsNil, returnsNil]
      ({ exampleCtx with handlerIdx := 0 }, [])).2.2 = [0, 1, 2] ∧
    (Next [callsNextTwice, returnsNil, returnsNil]
      ({ exampleCtx with handlerIdx := 0 }, [])).1 = .returned none :=
  ⟨trivial, by decide, by decide⟩

/-- C9, amended. Handler-chain dispatch, for every chain `hs` and context.
`Next` with a handler `h` under the cursor `i` runs `h` with the cursor at
`i + 1` (and `i` logged as invoked) and returns what `h` returns; `Next` with
the cursor at the end invokes nothing, changes nothing and returns nil.  One
loop iteration (cursor reset to 0, then `Next`) invokes the handlers
`0, 1, ..., m - 1` in this order, each once, for the `m ≤ k` at which the
cursor ends.  When no handler calls `Next` more than once, the iteration
stops at the first handler that does not call `Next`: if every handler
before `j` calls `Next` in the context it starts in and handler `j` does not
(it returns, an error or nil, instead), exactly the handlers `0, ..., j` are
invoked; if every handler calls `Next`, the whole chain is; and no handler
behind one that never calls `Next` is invoked.  A handler that does not call
`Next` ends the `Next` that invoked it with the cursor just behind it, and
its result, error or nil, is the result of that `Next`.  The stop at the
first handler that does not call `Next` needs of the handlers before it only
that each calls `Next` exactly once in this run (last part). -/
theorem Next_dispatch (hs : List Handler) (st : ChainState) (ctx : ServerContext) :
    (∀ h, hs[st.1.handlerIdx]? = some h →
      Next hs st =
        Handler.run (Next hs) h
          ({ st.1 with handlerIdx := st.1.handlerIdx + 1 }, st.2 ++ [st.1.handlerIdx])) ∧
    (st.1.handlerIdx = hs.length → Next hs st = (.returned none, st)) ∧
    ((Next hs ({ ctx with handlerIdx := 0 }, [])).2.2 =
        List.range (Next hs ({ ctx with handlerIdx := 0 }, [])).2.1.handlerIdx ∧
      (Next hs ({ ctx with handlerIdx := 0 }, [])).2.1.handlerIdx ≤ hs.length) ∧
    ((∀ h ∈ hs, h.nextAtMostOnce) → ∀ j h, hs[j]? = some h → h.neverNext →
      (Next hs ({ ctx with handlerIdx := 0 }, [])).2.1.handlerIdx ≤ j + 1) ∧
    (∀ err, hs[st.1.handlerIdx]? = some (.ret err) → (Next hs st).1 = .returned err) ∧
    ((∀ h ∈ hs, h.nextAtMostOnce) → ∀ (j : Nat) (h : Handler), hs[j]? = some h →
      (∀ (i : Nat) (hi : Handler), i < j → hs[i]? = some hi →
        hi.reachesNext (startContext hs ctx i) = true) →
      h.reachesNext (startContext hs ctx j) = false →
      (Next hs ({ ctx with handlerIdx := 0 }, [])).2.1.handlerIdx = j + 1 ∧
      (Next hs ({ ctx with handlerIdx := 0 }, [])).2.2 = List.range (j + 1)) ∧
    ((∀ h ∈ hs, h.nextAtMostOnce) →
      (∀ (i : Nat) (hi : Handler), hs[i]? = some hi →
        hi.reachesNext (startContext hs ctx i) = true) →
      (Next hs ({ ctx with handlerIdx := 0 }, [])).2.1.handlerIdx = hs.length ∧
      (Next hs ({ ctx with handlerIdx := 0 }, [])).2.2 = List.range hs.length) ∧
    (∀ h, hs[st.1.handlerIdx]? = some h →
      h.reachesNext { st.1 with handlerIdx := st.1.handlerIdx + 1 } = false →
      (Next hs st).2 =
        (h.atFirstNext { st.1 with handlerIdx := st.1.handlerIdx + 1 },
          st.2 ++ [st.1.handlerIdx]) ∧
      (Next hs st).2.1.handlerIdx = st.1.handlerIdx + 1 ∧
      ∀ f : ChainState → Outcome (Option Error) × ChainState,
        (Next hs st).1 =
          (Handler.run f h
            ({ st.1 with handlerIdx := st.1.handlerIdx + 1 }, st.2 ++ [st.1.handlerIdx])).1) ∧
    (∀ (j : Nat) (h : Handler), hs[j]? = some h →
      (∀ (i : Nat) (hi : Handler), i < j → hs[i]? = some hi → callsNextOnce hs ctx i hi) →
      h.reachesNext (startContext hs ctx j) = false →
      (Next hs ({ ctx with handlerIdx := 0 }, [])).2.1.handlerIdx = j + 1 ∧
      (Next hs ({ ctx with handlerIdx := 0 }, [])).2.2 = List.range (j + 1)) := by
  have hinv := Next_inv hs ({ ctx with handlerIdx := 0 }, []) (Nat.zero_le _)
  have htrace : (Next hs ({ ctx with handlerIdx := 0 }, [])).2.2 =
      List.range (Next hs ({ ctx with handlerIdx := 0 }, [])).2.1.handlerIdx := by
    rw [hinv.2.2]
    simp [List.range_eq_range']
  refine ⟨fun h hget => Next_step hs st h hget, ?_, ⟨htrace, hinv.2.1⟩, ?_, ?_, ?_, ?_, ?_, ?_⟩
  · intro hend
    simp [Next, hend, NextWithin]
  · intro hall j h hget hn
    exact Next_stops hs hall j h hget hn j ({ ctx with handlerIdx := 0 }, [])
      (Nat.zero_le _) (by simp)
  · intro err hget
    rw [Next_step hs st _ hget]
    rfl
  · intro hall j h hget hbefore hstop
    have hidx := Next_stops_at_first hs ctx hall j h hget hbefore hstop
    exact ⟨hidx, by rw [htrace, hidx]⟩
  · intro hall hcall
    have hidx := Next_runs_whole_chain hs ctx hall hcall
    exact ⟨hidx, by rw [htrace, hidx]⟩
  · intro h hget hstop
    have hrun := Handler.run_noReach (Next hs) (Next hs) h
      { st.1 with handlerIdx := st.1.handlerIdx + 1 } (st.2 ++ [st.1.handlerIdx]) hstop
    rw [Next_step hs st h hget]
    refine ⟨hrun.2, ?_, ?_⟩
    · rw [hrun.2]
      simp only
      rw [Handler.atFirstNext_idx]
    · intro f
      rw [(Handler.run_noReach (Next hs) f h _ _ hstop).1]
  · intro j h hget hbefore hstop
    have hidx := Next_stops_at_first_in_run hs ctx j h hget hbefore hstop
    exact ⟨hidx, by rw [htrace, hidx]⟩

/-- Witness of `Next_dispatch`: the chain `[passesOn, failsWith (ext 5),
returnsNil]`, whose second handler stops the iteration with an error; the
chain `[readThenNext, returnsNil]` on a connection whose read fails, where
the first handler returns the read error instead of calling `Next`; and the
chain `[readThenNext, failsWith (ext 5), returnsNil]` on a connection that
delivers, where the first handler calls `Next` once and the second stops. -/
theorem Next_dispatch_witness :
    ([passesOn, failsWith (Error.ext 5), returnsNil][(exampleCtx, ([] : List Nat)).1.handlerIdx]?
        = some passesOn ∧
      Next [passesOn, failsWith (Error.ext 5), returnsNil] (exampleCtx, []) =
        Handler.run (Next [passesOn, failsWith (Error.ext 5), returnsNil]) passesOn
          ({ exampleCtx with handlerIdx := exampleCtx.handlerIdx + 1 },
            [] ++ [exampleCtx.handlerIdx])) ∧
    ((∀ h ∈ [passesOn, failsWith (Error.ext 5), returnsNil], h.nextAtMostOnce) ∧
      (failsWith (Error.ext 5)).neverNext ∧
      (Next [passesOn, failsWith (Error.ext 5), returnsNil]
        ({ exampleCtx with handlerIdx := 0 }, [])).2.1.handlerIdx ≤ 1 + 1) ∧
    ((∀ h ∈ [readThenNext, returnsNil], h.nextAtMostOnce) ∧
      readThenNext.reachesNext (startContext [readThenNext, returnsNil] brokenCtx 0) = false ∧
      (Next [readThenNext, returnsNil] ({ brokenCtx with handlerIdx := 0 }, [])).2.1.handlerIdx
        = 0 + 1 ∧
      (Next [readThenNext, returnsNil] ({ brokenCtx with handlerIdx := 0 }, [])).2.2
        = List.range (0 + 1)) ∧
    (callsNextOnce [readThenNext, failsWith (Error.ext 5), returnsNil] exampleCtx 0
        readThenNext ∧
      (failsWith (Error.ext 5)).reachesNext
        (startContext [readThenNext, failsWith (Error.ext 5), returnsNil] exampleCtx 1) = false ∧
      (Next [readThenNext, failsWith (Error.ext 5), returnsNil]
        ({ exampleCtx with handlerIdx := 0 }, [])).2.1.handlerIdx = 1 + 1 ∧
      (Next [readThenNext, failsWith (Error.ext 5), returnsNil]
        ({ exampleCtx with handlerIdx := 0 }, [])).2.2 = List.range (1 + 1)) :=
  have hall : ∀ h ∈ [passesOn, failsWith (Error.ext 5), returnsNil], h.nextAtMostOnce := by
    intro h hh
    simp only [List.mem_cons, List.mem_singleton, List.not_mem_nil, or_false] at hh
    rcases hh with rfl | rfl | rfl <;>
      simp [passesOn, failsWith, returnsNil, Handler.nextAtMostOnce, Handler.neverNext]
  have hall2 : ∀ h ∈ [readThenNext, returnsNil], h.nextAtMostOnce := by
    intro h hh
    simp only [List.mem_cons, List.mem_singleton, List.not_mem_nil, or_false] at hh
    rcases hh with rfl | rfl
    · intro c
      simp only [readThenNext]
      split <;> simp [Handler.nextAtMostOnce, Handler.neverNext]
    · simp [returnsNil, Handler.nextAtMostOnce]
  have honce : callsNextOnce [readThenNext, failsWith (Error.ext 5), returnsNil] exampleCtx 0
      readThenNext :=
    ⟨by decide, fun err _ => by
      have : (readThenNext.afterFirstNext
          (startContext [readThenNext, failsWith (Error.ext 5), returnsNil] exampleCtx 0) err)
          = .ret err := rfl
      rw [this]
      rfl⟩
  ⟨⟨rfl,
    (Next_dispatch [passesOn, failsWith (Error.ext 5), returnsNil] (exampleCtx, []) exampleCtx).1
      passesOn rfl⟩,
   ⟨hall, trivial,
    (Next_dispatch [passesOn, failsWith (Error.ext 5), returnsNil] (exampleCtx, [])
      exampleCtx).2.2.2.1 hall 1 (failsWith (Error.ext 5)) rfl trivial⟩,
   ⟨hall2, by decide,
    (Next_dispatch [readThenNext, returnsNil] (brokenCtx, []) brokenCtx).2.2.2.2.2.1 hall2 0
      readThenNext rfl (fun i hi hlt _ => absurd hlt (Nat.not_lt_zero i)) (by decide)⟩,
   honce, by decide,
   (Next_dispatch [readThenNext, failsWith (Error.ext 5), returnsNil] (exampleCtx, [])
      exampleCtx).2.2.2.2.2.2.2.2 1 (failsWith (Error.ext 5)) rfl
      (fun i hi hlt hget => by
        have hi0 : i = 0 := by omega
        subst hi0
        have hh : hi = readThenNext := by
          simp only [List.getElem?_cons_zero, Option.some.injEq] at hget
          exact hget.symm
        subst hh
        exact honce)
      (by decide)⟩

/-! ## Theorems: flushing the response buffer -/

/-- What `flushResponse` does with a non-empty buffer: `SendBuf` has reset
the buffer when the count is compared, so the loop is left exactly when the
write failed or reported a count other than 0. -/
theorem flushResponse_exits_iff (sched : Schedule) (st : LoopState)
    (hL : st.ctx.resp.length ≠ 0) :
    (∃ st', flushResponse sched st = .exit st') ↔
      ((st.ctx.conn.Write sched st.ctx.resp).1.2 ≠ none ∨
        (st.ctx.conn.Write sched st.ctx.resp).1.1 ≠ 0) := by
  unfold flushResponse
  simp only [hL, ne_eq, not_false_eq_true, if_true, ServerContext.SendBuf,
    ServerContext.SendBinary, List.length_nil]
  cases herr : (st.ctx.conn.Write sched st.ctx.resp).1.2 with
  | some err => simp
  | none =>
    by_cases hn : (st.ctx.conn.Write sched st.ctx.resp).1.1 = 0
    · simp [hn]
    · simp [hn]

/-- C4. A complete flush ends the connection: with the handler
`buffersResponse` (3 bytes buffered, nil returned) and a socket whose write
reports exactly 3 bytes and no error, the iteration makes the single write
`[1, 2, 3]` and then leaves the loop: the error handler receives the
"not all the bytes were written" error and the connection is closed. -/
theorem complete_flush_closes_connection :
    (exampleCtx.conn.Write .workFirst [1, 2, 3]).1 = (3, none) ∧
    ∃ st, loopBody { handlers := [buffersResponse] } .workFirst
        { ctx := exampleCtx, handled := [] } = .exit st ∧
      st.handled = [Error.wrap Error.shortWrite] ∧
      st.ctx.conn.conn.writeLog = [[1, 2, 3]] ∧
      st.ctx.conn.notifyOnce = true ∧
      st.ctx.conn.closeNotifier = 1 ∧
      st.ctx.conn.conn.closeCalls = 1 :=
  ⟨by decide, _, rfl, by decide, by decide, by decide, by decide, by decide⟩

/-! ## Theorems: reading into an empty buffer -/

/-- C11. `Read` and `ReadContext` with a buffer of length 0, on any
connection and under any schedule: the count is 0, the error is the
zero-length error, and the connection is exactly as before, so no socket
read was made, the buffered byte is still there and nothing was closed. -/
theorem Read_zero_length_buffer (sched : Schedule) (c : Connection) (b : List Byte)
    (hb : b.length = 0) :
    c.Read sched b = ((0, some Error.zeroLenBuffer), c, b) ∧
    c.ReadContext sched b = ((0, some Error.zeroLenBuffer), c, b) ∧
    (c.Read sched b).1.1 = 0 ∧
    (c.Read sched b).1.2 ≠ none ∧
    (c.Read sched b).2.1.conn.readLog = c.conn.readLog ∧
    (c.Read sched b).2.1.bufferedByte = c.bufferedByte ∧
    (c.Read sched b).2.1.notifyOnce = c.notifyOnce ∧
    (c.Read sched b).2.1.closeNotifier = c.closeNotifier ∧
    (c.Read sched b).2.1.conn.closeCalls = c.conn.closeCalls := by
  have h : c.ReadContext sched b = ((0, some Error.zeroLenBuffer), c, b) := by
    simp [Connection.ReadContext, hb]
  have h' : c.Read sched b = ((0, some Error.zeroLenBuffer), c, b) := h
  rw [h']
  simp [h]

/-- Witness of `Read_zero_length_buffer`: an empty buffer on `peekedConn`,
which holds the buffered byte 7. -/
theorem Read_zero_length_buffer_witness :
    ([] : List Byte).length = 0 ∧ peekedConn.bufferedByte = some 7 ∧
    peekedConn.Read .workFirst [] = ((0, some Error.zeroLenBuffer), peekedConn, []) :=
  ⟨rfl, by decide, (Read_zero_length_buffer .workFirst peekedConn [] rfl).1⟩

/-! ## Theorems: the pre-listen validation -/

theorem Server.registerAll_handlers (fns : List Handler) :
    ∀ s : Server, (s.registerAll fns).handlers = s.handlers ++ fns := by
  induction fns with
  | nil => intro s; simp [Server.registerAll]
  | cons f t ih =>
    intro s
    have := ih (s.Register f)
    simp only [Server.registerAll, List.foldl_cons] at this ⊢
    rw [this]
    simp [Server.Register]

/-- C12. `Listen` fails fast exactly when no handler is registered.  On a
new server it returns the wrapped "handler cannot be nil" error without
trying to open a listener; on any server no listener is tried exactly when
the chain is empty, and then the result is an error; after registering the
handlers `fns`, one or more, on a new server the validation passes, the chain
is `fns` in registration order, and `Listen` goes on to open the listener. -/
theorem Listen_fails_fast_iff_no_handler (config : ServerConfig) (listenErr : Option Error) :
    (NewServer config).Listen listenErr = (some (Error.wrap Error.noHandler), 0) ∧
    (∀ s : Server, ((s.Listen listenErr).2 = 0 ↔ s.handlers.length = 0) ∧
      (s.handlers.length = 0 → (s.Listen listenErr).1 ≠ none)) ∧
    (∀ fns : List Handler, 1 ≤ fns.length →
      ((NewServer config).registerAll fns).validateBeforeListen = none ∧
      ((NewServer config).registerAll fns).handlers = fns ∧
      ((NewServer config).registerAll fns).Listen listenErr = (listenErr, 1)) := by
  refine ⟨by simp [Server.Listen, Server.validateBeforeListen, NewServer, WrapErr], ?_, ?_⟩
  · intro s
    by_cases h : s.handlers.length = 0
    · simp [Server.Listen, Server.validateBeforeListen, h, WrapErr]
    · cases listenErr <;> simp [Server.Listen, Server.validateBeforeListen, h]
  · intro fns hk
    have hh : ((NewServer config).registerAll fns).handlers = fns := by
      rw [Server.registerAll_handlers]
      simp [NewServer]
    have hne : fns.length ≠ 0 := by omega
    refine ⟨by simp [Server.validateBeforeListen, hh, hne], hh, ?_⟩
    cases listenErr <;> simp [Server.Listen, Server.validateBeforeListen, hh, hne]

/-- Witness of `Listen_fails_fast_iff_no_handler`: two handlers registered
on a new server. -/
theorem Listen_fails_fast_iff_no_handler_witness :
    1 ≤ [passesOn, returnsNil].length ∧
    ((NewServer DefaultServerConfig).registerAll [passesOn, returnsNil]).validateBeforeListen
      = none ∧
    ((NewServer DefaultServerConfig).registerAll [passesOn, returnsNil]).handlers
      = [passesOn, returnsNil] ∧
    ((NewServer DefaultServerConfig).registerAll [passesOn, returnsNil]).Listen none
      = (none, 1) :=
  ⟨by decide,
   (Listen_fails_fast_iff_no_handler DefaultServerConfig none).2.2 [passesOn, returnsNil]
     (by decide)⟩

/-! ## Theorems: client configuration -/

theorem ClientConfig.setDefault_eq (c : ClientConfig) :
    c.setDefault =
      { Address := c.Address
        ReadTimeout := if c.ReadTimeout = 0 then 10 * 1000000000 else c.ReadTimeout
        WriteTimeout := if c.WriteTimeout = 0 then 10 * 1000000000 else c.WriteTimeout
        DialTimeout := if c.DialTimeout = 0 then 10 * 1000000000 else c.DialTimeout
        MaxConns := if c.MaxConns ≤ 0 then 10 else c.MaxConns } := by
  by_cases h1 : c.ReadTimeout = 0 <;> by_cases h2 : c.WriteTimeout = 0 <;>
    by_cases h3 : c.DialTimeout = 0 <;> by_cases h4 : c.MaxConns ≤ 0 <;>
    simp [ClientConfig.setDefault, DefaultClientConfig, h1, h2, h3, h4]

theorem dialEntries_ok (dial : Nat → Option Error) (hdial : ∀ i, dial i = none) (k : Nat) :
    ∀ i, ∃ l, dialEntries dial k i = .ok l := by
  induction k with
  | zero => intro i; exact ⟨[], rfl⟩
  | succ k ih =>
    intro i
    obtain ⟨rest, hrest⟩ := ih (i + 1)
    exact ⟨{ acquired := 0, conn := i } :: rest, by simp [dialEntries, hdial i, hrest]⟩

theorem NewPool_maxSize (dial : Nat → Option Error) (N : Int) (p : Pool)
    (h : NewPool dial N = .ok p) : p.maxSize = N.toNat := by
  unfold NewPool at h
  by_cases hN : N ≤ 0
  · simp [hN] at h
  · simp only [hN, if_false] at h
    cases hd : dialEntries dial N.toNat 0 with
    | error err => simp [hd] at h
    | ok entries =>
      simp only [hd, Except.ok.injEq] at h
      subst h
      rfl

/-- C13. Client configuration resolution.  `Validate` returns an error
exactly when `Address` is empty.  `setDefault` puts 10 seconds in place of
each read, write or dial timeout that is 0 and 10 in place of a `MaxConns`
that is 0 or less, and leaves every other field value as it was; applying it
twice is applying it once.  A client that `NewClient` builds from a config
with `MaxConns ≤ 0` has a pool of 10 slots behind a gate of 10 units, and
`NewClient` does build one when the address is set and every dial succeeds. -/
theorem client_config_resolution (c : ClientConfig) (dial : Nat → Option Error) :
    (c.Validate ≠ none ↔ c.Address = "") ∧
    c.setDefault =
      { Address := c.Address
        ReadTimeout := if c.ReadTimeout = 0 then 10 * 1000000000 else c.ReadTimeout
        WriteTimeout := if c.WriteTimeout = 0 then 10 * 1000000000 else c.WriteTimeout
        DialTimeout := if c.DialTimeout = 0 then 10 * 1000000000 else c.DialTimeout
        MaxConns := if c.MaxConns ≤ 0 then 10 else c.MaxConns } ∧
    c.setDefault.setDefault = c.setDefault ∧
    (c.MaxConns ≤ 0 → ∀ cl, NewClient dial c = .ok cl →
      cl.pool.pool.length = 10 ∧ cl.pool.clientWaiter = { size := 10, cur := 0 } ∧
      cl.pool.maxSize = 10) ∧
    (c.MaxConns ≤ 0 → c.Address ≠ "" → (∀ i, dial i = none) →
      ∃ cl, NewClient dial c = .ok cl) := by
  have hmax : c.MaxConns ≤ 0 → c.setDefault.MaxConns = 10 := by
    intro h
    rw [ClientConfig.setDefault_eq]
    simp [h]
  have haddr : c.setDefault.Address = c.Address := by
    rw [ClientConfig.setDefault_eq]
  refine ⟨?_, ClientConfig.setDefault_eq c, ?_, ?_, ?_⟩
  · by_cases h : c.Address = "" <;> simp [ClientConfig.Validate, WrapErr, h]
  · rw [ClientConfig.setDefault_eq c.setDefault, ClientConfig.setDefault_eq c]
    by_cases h1 : c.ReadTimeout = 0 <;> by_cases h2 : c.WriteTimeout = 0 <;>
      by_cases h3 : c.DialTimeout = 0 <;> by_cases h4 : c.MaxConns ≤ 0 <;>
      simp [h1, h2, h3, h4]
  · intro h cl hcl
    unfold NewClient at hcl
    cases hv : c.Validate with
    | some err => simp [hv] at hcl
    | none =>
      simp only [hv, hmax h] at hcl
      by_cases ha : c.setDefault.Address = ""
      · simp [ha] at hcl
      · simp only [ha, if_false] at hcl
        cases hp : NewPool dial 10 with
        | error err => simp [hp] at hcl
        | ok pool =>
          simp only [hp, Except.ok.injEq] at hcl
          subst hcl
          obtain ⟨_, hlen, hgate, _, _⟩ := NewPool_spec dial 10 pool hp
          have hmaxSize := NewPool_maxSize dial 10 pool hp
          exact ⟨by simpa using hlen, by simpa using hgate, by simpa using hmaxSize⟩
  · intro h ha hdial
    obtain ⟨entries, hentries⟩ := dialEntries_ok dial hdial (10 : Int).toNat 0
    have hv : c.Validate = none := by simp [ClientConfig.Validate, ha]
    have ha' : ¬ c.setDefault.Address = "" := by rw [haddr]; exact ha
    have hpool : NewPool dial 10 =
        .ok { pool := entries, clientWaiter := NewWeighted (10 : Int).toNat,
              maxSize := (10 : Int).toNat } := by
      unfold NewPool
      rw [if_neg (by decide), hentries]
    refine ⟨{ readTimeout := c.setDefault.ReadTimeout
              writeTimeout := c.setDefault.WriteTimeout
              pool := { pool := entries, clientWaiter := NewWeighted (10 : Int).toNat,
                        maxSize := (10 : Int).toNat } }, ?_⟩
    unfold NewClient
    rw [hv]
    simp only [ha', if_false, hmax h, hpool]

/-- Witness of `client_config_resolution`: `exampleConfig`, whose `MaxConns`
is -2, with every dial succeeding. -/
theorem client_config_resolution_witness :
    exampleConfig.MaxConns ≤ 0 ∧ exampleConfig.Address ≠ "" ∧
    (∀ i : Nat, (fun _ => none : Nat → Option Error) i = none) ∧
    (∃ cl, NewClient (fun _ => none) exampleConfig = .ok cl) ∧
    exampleConfig.setDefault.setDefault = exampleConfig.setDefault :=
  ⟨by decide, by decide, fun _ => rfl,
   (client_config_resolution exampleConfig (fun _ => none)).2.2.2.2 (by decide) (by decide)
     (fun _ => rfl),
   (client_config_resolution exampleConfig (fun _ => none)).2.2.1⟩

/-! ## Theorems: dialing -/

/-- Every way `Dial` can end.  When the dial succeeds before the deadline the
call returns nil and leaves the connection as it was (the dialed socket stays
in the local variable); when the dial fails, or the deadline comes first, the
cleanup calls `Close` on the nil `conn` and the call panics.  In no case
does `Dial` return an error. -/
theorem Dial_outcomes (sched : Schedule) (dialed : Except Error Socket) (c : Connection) :
    (∀ sock, sched = .workFirst → dialed = .ok sock →
      c.Dial sched dialed = (.returned none, c, { conn := some sock, err := none, nilCloses := 0 })) ∧
    (∀ e, sched = .workFirst → dialed = .error e →
      (c.Dial sched dialed).1 = .panicked ∧ (c.Dial sched dialed).2.2.nilCloses = 1) ∧
    (sched = .deadlineFirst →
      (c.Dial sched dialed).1 = .panicked ∧ (c.Dial sched dialed).2.2.nilCloses = 1) ∧
    (∀ e, (c.Dial sched dialed).1 ≠ .returned (some e)) := by
  refine ⟨?_, ?_, ?_, ?_⟩
  · intro sock hs hd
    subst hs hd
    simp [Connection.Dial, WithTimeout, WithContext, WithContext.atReturn, Exec.worker, dialFn]
  · intro e hs hd
    subst hs hd
    simp [Connection.Dial, WithTimeout, WithContext, WithContext.atReturn, Exec.worker, dialFn,
      Exec.onceDo, Exec.record, dialCleanup]
  · intro hs
    subst hs
    simp [Connection.Dial, WithTimeout, WithContext, WithContext.atReturn, Exec.deadline,
      Exec.onceDo, Exec.record, dialCleanup]
  · intro e
    unfold Connection.Dial
    simp only
    split <;> simp

/-- C14. `Dial` does not report a dial failure.  On `exampleConn`, when
`net.Dial` fails with an error before the deadline, and also when the
deadline comes before the dial has returned, the cleanup calls `Close` on
the local `conn` that is still nil and the call panics; no error is
returned. -/
theorem Dial_failure_panics_in_cleanup :
    (exampleConn.Dial .workFirst (.error (Error.ext 5))).1 = .panicked ∧
    (exampleConn.Dial .workFirst (.error (Error.ext 5))).2.2 =
      { conn := none, err := some (Error.ext 5), nilCloses := 1 } ∧
    (exampleConn.Dial .deadlineFirst (.ok exampleSocket)).1 = .panicked ∧
    (exampleConn.Dial .deadlineFirst (.ok exampleSocket)).2.2 =
      { conn := none, err := none, nilCloses := 1 } := by
  decide

end EasyTcp
